import Mathlib

/-!
Verification development for the leetob-site repository.

The development shallowly embeds the two engineering subsystems of the
repository: the incremental SSE stream decoder of src/api.js
(streamChatCompletion, processLine, extractContent) and the multi-source
search aggregator (performWebSearch in src/api.js and the web_search /
fetch_url tools of the MCP server), together with the streaming policy,
the proxy-chain fetchers and the query intent classifier.

JavaScript strings are modelled as lists of characters; JSON values as an
inductive type; JSON.parse as a fuel-based recursive descent parser;
exceptions as Option / explicit error results.  Note: the snapshot of the
repository stores the Cyrillic characters of the original source double
UTF-8 encoded (each Cyrillic letter appears as a two character mojibake
sequence, and a few bytes as U+FFFD).  The embedding transcribes the code
points exactly as they occur in the snapshot.
-/

namespace Leetob

/-- Character sequence model of a JavaScript string. -/
abbrev Str := List Char

/-- Conversion from a Lean string literal to the model type. -/
def strL (s : String) : Str := s.toList

/-- Whitespace recognised by the JavaScript trim function, restricted to
the ASCII code points that occur in this code base. -/
def isJsWs (c : Char) : Bool :=
  c = ' ' || c = '\t' || c = '\n' || c = '\r' || c = '\x0b' || c = '\x0c'

/-- Model of the JavaScript String.prototype.trim method. -/
def jsTrim (s : Str) : Str :=
  ((s.dropWhile isJsWs).reverse.dropWhile isJsWs).reverse

/-- Model of the JavaScript String.prototype.startsWith method:
strStartsWith p s tests whether p is an initial segment of s. -/
def strStartsWith : Str → Str → Bool
  | [], _ => true
  | _ :: _, [] => false
  | a :: p, b :: s => a = b && strStartsWith p s

/-- Model of the JavaScript String.prototype.includes method. -/
def strContains (s pat : Str) : Bool :=
  s.tails.any (fun t => strStartsWith pat t)

/-- True when the string holds no newline character. -/
def noNl (s : Str) : Bool := s.all (fun c => c ≠ '\n')

/-- Splits a string at its first newline: some (pre, post) when
s = pre ++ newline ++ post with pre newline free, none when s has no
newline.  This models indexOf with substring extraction in the decoder
loop of streamChatCompletion. -/
def splitAtNl : Str → Option (Str × Str)
  | [] => none
  | c :: rest =>
    if c = '\n' then some ([], rest)
    else
      match splitAtNl rest with
      | none => none
      | some (pre, post) => some (c :: pre, post)

/-- Splits a string into the list of its newline terminated lines paired
with the trailing segment after the last newline. -/
def nlSplit : Str → List Str × Str
  | [] => ([], [])
  | c :: rest =>
    if c = '\n' then
      let r := nlSplit rest
      ([] :: r.1, r.2)
    else
      match nlSplit rest with
      | ([], t) => ([], c :: t)
      | (l :: ls, t) => ((c :: l) :: ls, t)

/-- Model of the JavaScript String.prototype.split method at the newline
separator: n newlines give n + 1 pieces. -/
def splitNl : Str → List Str
  | [] => [[]]
  | c :: rest =>
    if c = '\n' then [] :: splitNl rest
    else
      match splitNl rest with
      | [] => [[c]]
      | l :: ls => (c :: l) :: ls

/-! ## JSON values -/

/-- JSON values as produced by JSON.parse.  Numbers are kept as a decimal
mantissa and a power of ten exponent, which is enough to decide the
JavaScript truthiness of a parsed number. -/
inductive Json where
  | null
  | bool (b : Bool)
  | num (mant : Int) (exp10 : Int)
  | str (s : Str)
  | arr (elems : List Json)
  | obj (fields : List (Str × Json))

/-- JavaScript truthiness of a JSON value. -/
def jtruthy : Json → Bool
  | .null => false
  | .bool b => b
  | .num m _ => m ≠ 0
  | .str s => s ≠ []
  | .arr _ => true
  | .obj _ => true

/-- Property lookup in a parsed JSON object; with duplicate keys the last
occurrence wins, as in JSON.parse. -/
def findField (fs : List (Str × Json)) (k : Str) : Option Json :=
  fs.foldl (fun acc p => if p.1 = k then some p.2 else acc) none

/-- Model of JavaScript property access j[k]: undefined (none) on any
non-object value or missing key. -/
def jget : Json → Str → Option Json
  | .obj fs, k => findField fs k
  | _, _ => none

/-- Model of JavaScript index access j[i] on a parsed JSON array. -/
def jidx : Json → Nat → Option Json
  | .arr xs, i => xs.get? i
  | _, _ => none

/-- Optional chained property access: o?.[k]. -/
def jf (o : Option Json) (k : String) : Option Json :=
  o.bind (fun j => jget j (strL k))

/-- Optional chained index access: o?.[i]. -/
def ji (o : Option Json) (i : Nat) : Option Json :=
  o.bind (fun j => jidx j i)

/-- Truthiness of an optionally present JavaScript value, with undefined
falsy. -/
def otruthy : Option Json → Bool
  | some v => jtruthy v
  | none => false

/-! ## JSON.parse, as a fuel based recursive descent parser -/

/-- JSON insignificant whitespace. -/
def isJsonWs (c : Char) : Bool :=
  c = ' ' || c = '\t' || c = '\n' || c = '\r'

/-- Drops leading JSON whitespace. -/
def skipWs (s : Str) : Str := s.dropWhile isJsonWs

/-- Value of one hexadecimal digit. -/
def hexVal (c : Char) : Option Nat :=
  if '0' ≤ c ∧ c ≤ '9' then some (c.toNat - '0'.toNat)
  else if 'a' ≤ c ∧ c ≤ 'f' then some (c.toNat - 'a'.toNat + 10)
  else if 'A' ≤ c ∧ c ≤ 'F' then some (c.toNat - 'A'.toNat + 10)
  else none

/-- Parses the body of a JSON string literal after the opening quote,
returning the decoded characters and the rest of the input. -/
def pStrBody : Nat → Str → Option (Str × Str)
  | 0, _ => none
  | _ + 1, [] => none
  | fuel + 1, c :: r =>
    if c = '"' then some ([], r)
    else if c = '\\' then
      match r with
      | [] => none
      | e :: r2 =>
        let dec : Option (Char × Str) :=
          if e = '"' then some ('"', r2)
          else if e = '\\' then some ('\\', r2)
          else if e = '/' then some ('/', r2)
          else if e = 'b' then some ('\x08', r2)
          else if e = 'f' then some ('\x0c', r2)
          else if e = 'n' then some ('\n', r2)
          else if e = 'r' then some ('\r', r2)
          else if e = 't' then some ('\t', r2)
          else if e = 'u' then
            match r2 with
            | h1 :: h2 :: h3 :: h4 :: r3 =>
              match hexVal h1, hexVal h2, hexVal h3, hexVal h4 with
              | some a, some b2, some c2, some d =>
                some (Char.ofNat (((a * 16 + b2) * 16 + c2) * 16 + d), r3)
              | _, _, _, _ => none
            | _ => none
          else none
        match dec with
        | some (ch, r3) =>
          match pStrBody fuel r3 with
          | some (cs, rest) => some (ch :: cs, rest)
          | none => none
        | none => none
    else if c.toNat < 0x20 then none
    else
      match pStrBody fuel r with
      | some (cs, rest) => some (c :: cs, rest)
      | none => none

/-- True for a decimal digit. -/
def isDigitC (c : Char) : Bool := '0' ≤ c && c ≤ '9'

/-- Reads a maximal run of decimal digits. -/
def pDigits (s : Str) : List Char × Str :=
  (s.takeWhile isDigitC, s.dropWhile isDigitC)

/-- Numeric value of a digit run. -/
def digitsVal (ds : List Char) : Nat :=
  ds.foldl (fun acc c => acc * 10 + (c.toNat - '0'.toNat)) 0

/-- Parses a JSON number in the strict JSON grammar, returning mantissa
and power of ten exponent. -/
def pNum (s : Str) : Option (Json × Str) :=
  let (neg, s1) :=
    match s with
    | '-' :: r => (true, r)
    | _ => (false, s)
  let intPart : Option (List Char × Str) :=
    match s1 with
    | '0' :: r => some (['0'], r)
    | c :: _ =>
      if isDigitC c ∧ c ≠ '0' then
        let (ds, r) := pDigits s1
        some (ds, r)
      else none
    | [] => none
  match intPart with
  | none => none
  | some (ids, s2) =>
    let fracPart : Option (List Char × Str) :=
      match s2 with
      | '.' :: r =>
        let (ds, r2) := pDigits r
        if ds = [] then none else some (ds, r2)
      | _ => some ([], s2)
    match fracPart with
    | none => none
    | some (fds, s3) =>
      let expPart : Option (Int × Str) :=
        match s3 with
        | e :: r =>
          if e = 'e' ∨ e = 'E' then
            let (esign, r2) :=
              match r with
              | '-' :: r3 => ((-1 : Int), r3)
              | '+' :: r3 => ((1 : Int), r3)
              | _ => ((1 : Int), r)
            let (ds, r3) := pDigits r2
            if ds = [] then none else some (esign * (digitsVal ds : Int), r3)
          else some (0, s3)
        | [] => some (0, s3)
      match expPart with
      | none => none
      | some (ex, s4) =>
        let mant : Int := (digitsVal (ids ++ fds) : Int)
        let mant := if neg then -mant else mant
        some (.num mant (ex - (fds.length : Int)), s4)

mutual

/-- Parses one JSON value, fuel bounded. -/
def pVal : Nat → Str → Option (Json × Str)
  | 0, _ => none
  | fuel + 1, s0 =>
    let s := skipWs s0
    match s with
    | [] => none
    | c :: r =>
      if c = '"' then
        match pStrBody (s0.length + 1) r with
        | some (cs, rest) => some (.str cs, rest)
        | none => none
      else if c = '[' then
        match skipWs r with
        | ']' :: r2 => some (.arr [], r2)
        | s1 => match pArrItems fuel s1 with
          | some (xs, rest) => some (.arr xs, rest)
          | none => none
      else if c = '{' then
        match skipWs r with
        | '}' :: r2 => some (.obj [], r2)
        | s1 => match pObjItems fuel s1 with
          | some (fs, rest) => some (.obj fs, rest)
          | none => none
      else if strStartsWith (strL "true") s then some (.bool true, s.drop 4)
      else if strStartsWith (strL "false") s then some (.bool false, s.drop 5)
      else if strStartsWith (strL "null") s then some (.null, s.drop 4)
      else if isDigitC c || c = '-' then pNum s
      else none

/-- Parses the comma separated items of a JSON array up to the closing
bracket. -/
def pArrItems : Nat → Str → Option (List Json × Str)
  | 0, _ => none
  | fuel + 1, s =>
    match pVal fuel s with
    | none => none
    | some (v, r) =>
      match skipWs r with
      | ',' :: r2 =>
        match pArrItems fuel r2 with
        | some (xs, rest) => some (v :: xs, rest)
        | none => none
      | ']' :: r2 => some ([v], r2)
      | _ => none

/-- Parses the comma separated members of a JSON object up to the closing
brace. -/
def pObjItems : Nat → Str → Option (List (Str × Json) × Str)
  | 0, _ => none
  | fuel + 1, s =>
    match skipWs s with
    | '"' :: r =>
      match pStrBody (s.length + 1) r with
      | none => none
      | some (k, r2) =>
        match skipWs r2 with
        | ':' :: r3 =>
          match pVal fuel r3 with
          | none => none
          | some (v, r4) =>
            match skipWs r4 with
            | ',' :: r5 =>
              match pObjItems fuel r5 with
              | some (fs, rest) => some ((k, v) :: fs, rest)
              | none => none
            | '}' :: r5 => some ([(k, v)], r5)
            | _ => none
        | _ => none
    | _ => none

end

/-- Model of JSON.parse: the whole input, up to trailing whitespace, must
be consumed; any failure corresponds to a thrown SyntaxError. -/
def jsonParse (s : Str) : Option Json :=
  match pVal (s.length + 1) s with
  | some (j, rest) => if skipWs rest = [] then some j else none
  | none => none

/-! ## The content extractor of streamChatCompletion (src/api.js 112-150) -/

/-- The expression json.choices?.[0]. -/
def choice0 (j : Json) : Option Json := ji (jf (some j) "choices") 0

/-- Model of the extractContent helper of streamChatCompletion: tries the
provider shapes in the fixed source order, each guarded by JavaScript
truthiness of the accessed field, and returns null (none) when no shape
matches; the final expression content or null also maps a falsy match to
none.  The reasoning content branch of the source only logs and is
omitted. -/
def extractContent (j : Json) : Option Json :=
  let c1 := jf (jf (choice0 j) "delta") "content"
  let c2 := jf (jf (choice0 j) "delta") "text"
  let c3 := jf (jf (choice0 j) "message") "content"
  let c4 := jf (choice0 j) "text"
  let c5 := jf (ji (jf (jf (ji (jf (some j) "candidates") 0) "content") "parts") 0) "text"
  let c6 := jget j (strL "content")
  let c7 := jget j (strL "text")
  if otruthy c1 then c1
  else if otruthy c2 then c2
  else if otruthy c3 then c3
  else if otruthy c4 then c4
  else if otruthy c5 then c5
  else if otruthy c6 then c6
  else if otruthy c7 then c7
  else none

/-! ## The SSE line processor and the chunked decoding loop
(src/api.js 152-280) -/

/-- Result of processLine: either the line is an incomplete JSON fragment
that must stay in the buffer, or it was consumed, carrying an optional
content value. -/
inductive LineRes where
  | incomplete
  | ok (content : Option Json)

/-- The literal line data: [DONE]. -/
def doneMark : Str := strL "data: [DONE]"

/-- The SSE data line head. -/
def dataHead : Str := strL "data: "

/-- Model of the processLine helper: blank lines, the DONE marker and
non data lines are consumed without content; a data line is consumed with
the extracted content when its JSON payload parses, and reported
incomplete when the parse throws. -/
def processLine (line : Str) : LineRes :=
  let t := jsTrim line
  if t = [] || t = doneMark then .ok none
  else if !strStartsWith dataHead t then .ok none
  else
    match jsonParse (t.drop 6) with
    | some j => .ok (extractContent j)
    | none => .incomplete

/-- The fragments yielded for one consumed line: the decoder yields
result.content exactly when it is truthy. -/
def jemit : Option Json → List Json
  | some v => if jtruthy v then [v] else []
  | none => []

/-- The inner scanning loop of streamChatCompletion over the current
buffer.  The two scan indices processedUpTo and searchStart of the source
are represented by the split of the buffer into the already scanned but
unconsumed part pending (the text between processedUpTo and searchStart)
and the unscanned part rest; the function returns the fragments yielded
and the buffer leftover from processedUpTo on.  The fuel argument bounds
the number of loop iterations; every iteration consumes at least one
character of rest, so the loop with fuel equal to the length of rest
never runs out (an exhausted fuel returns the same value as the branch
in which no further newline is found). -/
def innerLoopF : Nat → Str → Str → List Json × Str
  | 0, pending, rest => ([], pending ++ rest)
  | fuel + 1, pending, rest =>
    match splitAtNl rest with
    | none => ([], pending ++ rest)
    | some (pre, post) =>
      let line := pending ++ pre
      if jsTrim line = [] then innerLoopF fuel [] post
      else
        match processLine line with
        | .incomplete =>
          if post = [] then ([], pending ++ pre ++ ['\n'])
          else innerLoopF fuel (pending ++ pre ++ ['\n']) post
        | .ok c =>
          let r := innerLoopF fuel [] post
          (jemit c ++ r.1, r.2)

/-- The inner scanning loop, started with enough fuel. -/
def innerLoop (pending rest : Str) : List Json × Str :=
  innerLoopF rest.length pending rest

/-- The post stream fragment of one leftover line: the final loop of
streamChatCompletion skips blank, DONE and non data lines, skips lines
whose JSON payload still fails to parse (the catch branch), and yields
the extracted content when truthy.  This coincides with processLine
followed by the truthiness guard. -/
def lineFrag (line : Str) : Option Json :=
  match processLine line with
  | .ok (some v) => if jtruthy v then some v else none
  | _ => none

/-- Model of the final buffer processing after stream end (src/api.js
259-280): when the trimmed leftover is nonempty it is split at newlines
and each line is given one last parse attempt. -/
def finalFlush (buffer : Str) : List Json :=
  if jsTrim buffer = [] then []
  else (splitNl buffer).filterMap lineFrag

/-- The chunked reading loop of streamChatCompletion: each raw chunk is
appended to the buffer, the inner loop consumes complete lines, and at
stream end the leftover buffer is flushed. -/
def feedChunks : List Str → Str → List Json
  | [], buffer => finalFlush buffer
  | c :: cs, buffer =>
    let r := innerLoop [] (buffer ++ c)
    r.1 ++ feedChunks cs r.2

/-- The full streaming decoder: the sequence of fragments yielded by
streamChatCompletion for a given sequence of raw text chunks. -/
def sseDecode (chunks : List Str) : List Json := feedChunks chunks []

/-- Normal form of the decoder output: the whole body split at newlines,
one parse attempt per line. -/
def sseNorm (body : Str) : List Json := (splitNl body).filterMap lineFrag

/-- A line that the scanning loop can always consume: processing it does
not report an incomplete JSON fragment. -/
def goodLineB (l : Str) : Bool :=
  match processLine l with
  | .incomplete => false
  | .ok _ => true

/-- Every newline terminated line of the body is consumable. -/
def linesOkB (s : Str) : Bool := (nlSplit s).1.all goodLineB

/-- A line of a syntactically valid SSE stream body: blank, the DONE
marker, or a data line whose payload is valid JSON.  Lines not starting
with the data head are consumed silently by the decoder, hence are also
benign, but the valid body predicate of the specification is the
stricter one. -/
def validLineB (l : Str) : Bool :=
  let t := jsTrim l
  t = [] || t = doneMark ||
    (strStartsWith dataHead t && (jsonParse (t.drop 6)).isSome)

/-- A complete, valid SSE stream body: every line, including the part
after the last newline, is valid. -/
def validBodyB (s : Str) : Bool := (splitNl s).all validLineB

/-- Concatenation of the raw chunks of a stream. -/
def concatChunks (cs : List Str) : Str := cs.foldr (fun a b => a ++ b) []

/-! ## The streaming policy and the non streaming path
(src/api.js 43-54 and 89-100) -/

/-- Model of the JavaScript toLowerCase method for one character, on the
ASCII, Latin-1, Greek and Cyrillic ranges that occur in this code base. -/
def jsToLowerChar (c : Char) : Char :=
  let n := c.toNat
  if 0x41 ≤ n ∧ n ≤ 0x5A then Char.ofNat (n + 32)
  else if 0xC0 ≤ n ∧ n ≤ 0xDE ∧ n ≠ 0xD7 then Char.ofNat (n + 32)
  else if 0x391 ≤ n ∧ n ≤ 0x3A9 ∧ n ≠ 0x3A2 then Char.ofNat (n + 32)
  else if 0x410 ≤ n ∧ n ≤ 0x42F then Char.ofNat (n + 32)
  else if n = 0x401 then Char.ofNat 0x451
  else c

/-- Model of the JavaScript toLowerCase method. -/
def jsToLower (s : Str) : Str := s.map jsToLowerChar

/-- The streaming transport decision of streamChatCompletion: thinking
models and Gemini 3 models are forced onto the non streaming path, and a
caller may force non streaming; both are recognised by substring match on
the lowercased model identifier. -/
def useStreaming (model : Str) (forceNonStreaming : Bool) : Bool :=
  let modelLower := jsToLower model
  let isThinkingModel := strContains modelLower (strL "thinking")
  let isGemini3Model := strContains modelLower (strL "gemini-3")
  let needsNonStreaming := isThinkingModel || isGemini3Model
  !forceNonStreaming && !needsNonStreaming

/-- The expression data.choices?.[0]?.message?.content of the non
streaming branch of streamChatCompletion. -/
def nonStreamContent (data : Json) : Option Json :=
  jf (jf (ji (jf (some data) "choices") 0) "message") "content"

/-- The fragments yielded by the non streaming branch: the full message
content or nothing, with the falsy default applied by content or the
empty string and the truthiness guard before the single yield. -/
def nonStreamYield (data : Json) : List Json :=
  match nonStreamContent data with
  | some v => if jtruthy v then [v] else []
  | none => []

/-! ## The query intent classifier (src/api.js 1885-1937)

The classifier tests the query against four ordered groups of regular
expression patterns.  The patterns use only literals, character classes,
the s and d escapes, the dot, alternation groups, option and the star and
plus quantifiers over single character classes; they are embedded as an
abstract syntax tree with an executable matcher that enumerates every
possible remainder of a match, so laziness or greediness of quantifiers
cannot change testability.  All patterns carry the i flag and the source
lowercases the query first; the matcher compares characters through the
toLowerCase model.  The pattern texts are transcribed code point for code
point from the repository snapshot, which stores the original Cyrillic
letters as two character mojibake sequences. -/

/-- Character classes of the embedded regular expressions. -/
inductive CC where
  | any
  | ws
  | digit
  | set (cs : Str)

/-- Regular expressions: literals, classes, sequencing, alternation,
option, and star or plus over a single character class. -/
inductive RE where
  | lit (cs : Str)
  | cls (c : CC)
  | seq (a b : RE)
  | alt (a b : RE)
  | opt (a : RE)
  | star (c : CC)
  | plus (c : CC)

/-- Whitespace of the regular expression s class. -/
def isRegexWs (c : Char) : Bool :=
  c = ' ' || c = '\t' || c = '\n' || c = '\r' || c = '\x0b' || c = '\x0c' ||
  c = '\u00a0' || c = '\u2028' || c = '\u2029' || c = '\ufeff'

/-- Case insensitive character comparison, as under the i flag. -/
def eqI (a b : Char) : Bool := jsToLowerChar a = jsToLowerChar b

/-- Membership of a character in a character class, case insensitively. -/
def ccMatch (cc : CC) (c : Char) : Bool :=
  match cc with
  | .any => !(c = '\n' || c = '\r' || c = '\u2028' || c = '\u2029')
  | .ws => isRegexWs c
  | .digit => '0' ≤ c && c ≤ '9'
  | .set cs => cs.any (fun p => eqI p c)

/-- Matches a literal against an initial segment of the input, returning
the remainder. -/
def litTest : Str → Str → Option Str
  | [], s => some s
  | _ :: _, [] => none
  | p :: ps, c :: cs => if eqI p c then litTest ps cs else none

/-- All remainders reachable by consuming an initial run of characters of
the class: the empty run, one character, two characters, and so on. -/
def runSuffixes (cc : CC) : Str → List Str
  | [] => [[]]
  | c :: r => (c :: r) :: (if ccMatch cc c then runSuffixes cc r else [])

/-- All remainders of the input after a match of the regular expression
at its start. -/
def mres : RE → Str → List Str
  | .lit l, s =>
    match litTest l s with
    | some r => [r]
    | none => []
  | .cls cc, s =>
    match s with
    | [] => []
    | c :: r => if ccMatch cc c then [r] else []
  | .seq a b, s => (mres a s).flatMap (mres b)
  | .alt a b, s => mres a s ++ mres b s
  | .opt a, s => s :: mres a s
  | .star cc, s => runSuffixes cc s
  | .plus cc, s =>
    match s with
    | [] => []
    | c :: r => if ccMatch cc c then runSuffixes cc r else []

/-- Model of the JavaScript RegExp test method: the pattern matches at
some position of the input. -/
def rtest (re : RE) (s : Str) : Bool :=
  s.tails.any (fun t => !(mres re t).isEmpty)

/-- The time and date pattern group. -/
def timePatterns : List RE :=
  [(RE.seq (RE.lit (strL "\u2013\u222b\u2013\u221e\u2013\u222b\u2013\u00e6\u2013")) (RE.seq (RE.opt (RE.lit (strL "\u00b5"))) (RE.seq (RE.star CC.ws) (RE.seq (RE.opt (RE.seq (RE.lit (strL "\u2014\u00c5\u2013\u00b5\u2013\u2265\u2013\u00e6\u2013\u00a5\u2013\u03a9\u2014\u00e8")) (RE.star CC.ws))) (RE.alt (RE.lit (strL "\u2014\u00e1\u2013\u220f\u2014\u00c5\u2013\u00aa\u2013\u00e6")) (RE.alt (RE.lit (strL "\u2013\u00a5\u2013\u221e\u2014\u00c7\u2013\u221e")) (RE.alt (RE.lit (strL "\u2013\u2264\u2014\u00c4\u2013\u00b5\u2013\u00ba\u2014\u00e8")) (RE.lit (strL "\u2013\u00a5\u2013\u00b5\u2013\u03a9\u2014\u00e5"))))))))),
  (RE.seq (RE.lit (strL "\u2014\u00c5\u2013\u222b\u2013\u00e6\u2013\u00aa\u2014\u00e5\u2013\u222b\u2013\u00e6")) (RE.seq (RE.star CC.ws) (RE.seq (RE.opt (RE.seq (RE.lit (strL "\u2014\u00c5\u2013\u00b5\u2013\u03c0\u2014\u00e1\u2013\u221e\u2014\u00c5")) (RE.star CC.ws))) (RE.alt (RE.lit (strL "\u2013\u2264\u2014\u00c4\u2013\u00b5\u2013\u00ba\u2013\u00b5\u2013\u03a9\u2013\u220f")) (RE.lit (strL "\u2013\u2264\u2014\u00c4\u2013\u00b5\u2013\u00ba\u2014\u00e8")))))),
  (RE.seq (RE.lit (strL "\u2013\u222b\u2013\u00e6\u2014\u00c7\u2013\u00e6\u2014\u00c4\u2014\u00e3\u2013\u03c0")) (RE.seq (RE.plus CC.ws) (RE.lit (strL "\u2014\u00e1\u2013\u221e\u2014\u00c5")))),
  (RE.seq (RE.lit (strL "what")) (RE.seq (RE.star CC.ws) (RE.seq (RE.opt (RE.seq (RE.lit (strL "is")) (RE.seq (RE.star CC.ws) (RE.seq (RE.lit (strL "the")) (RE.star CC.ws))))) (RE.alt (RE.lit (strL "time")) (RE.alt (RE.lit (strL "date")) (RE.lit (strL "day"))))))),
  (RE.seq (RE.lit (strL "current")) (RE.seq (RE.star CC.ws) (RE.alt (RE.lit (strL "time")) (RE.lit (strL "date")))))]

/-- The weather pattern group. -/
def weatherPatterns : List RE :=
  [(RE.seq (RE.lit (strL "\u2013\u00f8\u2013\u00e6\u2013\u2265\u2013\u00e6\u2013\u00a5")) (RE.cls (CC.set (strL "\u2013\u221e\u2013\u00b5\u2014\u00c9\u2014\u00e3")))),
  (RE.lit (strL "weather")),
  (RE.seq (RE.lit (strL "\u2014\u00c7\u2013\u00b5\u2013\u00ba\u2013\u00f8\u2013\u00b5\u2014\u00c4\u2013\u221e\u2014\u00c7\u2014\u00c9\u2014\u00c4")) (RE.cls (CC.set (strL "\u2013\u221e\u2013\u00b5\u2014\u00c9\u2014\u00e3")))),
  (RE.lit (strL "temperature")),
  (RE.seq (RE.lit (strL "\u2013\u222b\u2013\u221e\u2013\u222b\u2013\u221e\u2014\u00e8")) (RE.seq (RE.plus CC.ws) (RE.lit (strL "\u2013\u00f8\u2013\u00e6\u2013\u2265\u2013\u00e6\u2013\u00a5\u2013\u221e"))))]

/-- The currency pattern group. -/
def currencyPatterns : List RE :=
  [(RE.lit (strL "\u2013\u222b\u2014\u00c9\u2014\u00c4\u2014\u00c5")),
  (RE.seq (RE.lit (strL "exchange")) (RE.seq (RE.star CC.ws) (RE.lit (strL "rate")))),
  (RE.seq (RE.lit (strL "\u2014\u00c5\u2013\u222b\u2013\u00e6\u2013\u00aa\u2014\u00e5\u2013\u222b\u2013\u00e6")) (RE.seq (RE.plus CC.ws) (RE.seq (RE.alt (RE.lit (strL "\u2014\u00c5\u2014\u00c7\u2013\u00e6\u2013\u220f\u2014\u00c7")) (RE.lit (strL "\u2013\u00b1\u2014\u00c9\u2013\u00a5\u2013\u00b5\u2014\u00c7"))) (RE.seq (RE.star CC.any) (RE.alt (RE.lit (strL "\u2013\u00a5\u2013\u00e6\u2013\u00aa\u2013\u00aa\u2013\u221e\u2014\u00c4")) (RE.alt (RE.lit (strL "\u2013\u00b5\u2013\u2264\u2014\u00c4\u2013\u00e6")) (RE.alt (RE.lit (strL "\u2014\u00c4\u2014\u00c9\u2013\u00b1\u2013\u00aa")) (RE.alt (RE.lit (strL "bitcoin")) (RE.alt (RE.lit (strL "btc")) (RE.lit (strL "eth"))))))))))),
  (RE.seq (RE.lit (strL "convert")) (RE.seq (RE.star CC.any) (RE.alt (RE.lit (strL "usd")) (RE.alt (RE.lit (strL "eur")) (RE.alt (RE.lit (strL "rub")) (RE.lit (strL "btc"))))))),
  (RE.seq (RE.plus CC.digit) (RE.seq (RE.star CC.ws) (RE.alt (RE.lit (strL "usd")) (RE.alt (RE.lit (strL "eur")) (RE.alt (RE.lit (strL "rub")) (RE.alt (RE.lit (strL "dollar")) (RE.alt (RE.lit (strL "euro")) (RE.lit (strL "\u2014\u00c4\u2014\u00c9\u2013\u00b1\u2013\u00aa")))))))))]

/-- The news pattern group. -/
def newsPatterns : List RE :=
  [(RE.seq (RE.lit (strL "\u2013\u03a9\u2013\u00e6\u2013\u2264\u2013\u00e6\u2014\u00c5\u2014\u00c7")) (RE.cls (CC.set (strL "\u2013\u220f\u2014\u00e5\u2014\u00e8")))),
  (RE.lit (strL "news")),
  (RE.seq (RE.lit (strL "\u2014\u00e1\u2014\u00c7\u2013\u00e6")) (RE.seq (RE.plus CC.ws) (RE.alt (RE.lit (strL "\u2013\u03a9\u2013\u00e6\u2013\u2264\u2013\u00e6\u2013\u2265\u2013\u00e6")) (RE.alt (RE.lit (strL "\u2013\u00f8\u2014\u00c4\u2013\u00e6\u2013\u220f\u2014\u00c5\u2014\u00d6\u2013\u00e6\u2013\u00a5\u2013\u220f\u2014\u00c7")) (RE.lit (strL "\u2014\u00c5\u2013\u00aa\u2014\u00c9\u2014\u00e1\u2013\u220f\u2013\u00aa\u2013\u00e6\u2014\u00c5\u2014\u00e5")))))),
  (RE.seq (RE.lit (strL "\u2013\u00f8\u00d4\u00f8\u03a9\u00d4\u00f8\u03a9\u2014\u00c5\u2013\u00aa\u2013\u00b5\u2013\u00a5\u2013\u03a9\u2013\u220f\u2013\u00b5")) (RE.seq (RE.plus CC.ws) (RE.alt (RE.lit (strL "\u2014\u00c5\u2013\u00e6\u2013\u00b1\u2014\u00e3\u2014\u00c7\u2013\u220f\u2014\u00e8")) (RE.lit (strL "\u2013\u03a9\u2013\u00e6\u2013\u2264\u2013\u00e6\u2014\u00c5\u2014\u00c7\u2013\u220f")))))]

/-- True when some pattern of the group matches the query. -/
def groupHit (ps : List RE) (q : Str) : Bool := ps.any (fun p => rtest p q)

/-- Model of detectQueryIntent: the lowercased query is tested against
the four pattern groups in the fixed order time, weather, currency, news;
the first group with a matching pattern decides the intent and everything
else falls through to search. -/
def detectQueryIntent (query : Str) : Str :=
  let lowerQuery := jsToLower query
  if groupHit timePatterns lowerQuery then strL "time"
  else if groupHit weatherPatterns lowerQuery then strL "weather"
  else if groupHit currencyPatterns lowerQuery then strL "currency"
  else if groupHit newsPatterns lowerQuery then strL "news"
  else strL "search"

/-! ## String helpers used by the aggregator models -/

/-- Decimal rendering of a natural number, as in a JavaScript template
literal. -/
def natToStr (n : Nat) : Str := (Nat.repr n).toList

/-- Decimal rendering of an integer. -/
def intToStr (i : Int) : Str :=
  if i < 0 then '-' :: natToStr i.natAbs else natToStr i.natAbs

/-- UTF-8 bytes of a code point. -/
def utf8Bytes (n : Nat) : List Nat :=
  if n < 0x80 then [n]
  else if n < 0x800 then [0xC0 + n / 64, 0x80 + n % 64]
  else if n < 0x10000 then
    [0xE0 + n / 4096, 0x80 + n / 64 % 64, 0x80 + n % 64]
  else
    [0xF0 + n / 262144, 0x80 + n / 4096 % 64, 0x80 + n / 64 % 64,
      0x80 + n % 64]

/-- Uppercase hexadecimal digit. -/
def hexUp (n : Nat) : Char :=
  if n < 10 then Char.ofNat ('0'.toNat + n) else Char.ofNat ('A'.toNat + n - 10)

/-- True for the characters encodeURIComponent leaves unescaped. -/
def isUriUnreserved (c : Char) : Bool :=
  ('A' ≤ c && c ≤ 'Z') || ('a' ≤ c && c ≤ 'z') || ('0' ≤ c && c ≤ '9') ||
  c = '-' || c = '_' || c = '.' || c = '!' || c = '~' || c = '*' ||
  c = '\x27' || c = '(' || c = ')'

/-- Model of the JavaScript encodeURIComponent function. -/
def encodeURIComponent (s : Str) : Str :=
  s.flatMap (fun c =>
    if isUriUnreserved c then [c]
    else (utf8Bytes c.toNat).flatMap (fun b => ['%', hexUp (b / 16), hexUp (b % 16)]))

/-- Model of the hostname property of new URL, for the http and https
URLs handled by this code base: the authority up to the first delimiter,
lowercased; none models the TypeError thrown on other inputs. -/
def urlHostname (u : Str) : Option Str :=
  let afterScheme : Option Str :=
    if strStartsWith (strL "https://") u then some (u.drop 8)
    else if strStartsWith (strL "http://") u then some (u.drop 7)
    else none
  match afterScheme with
  | none => none
  | some r =>
    let host := r.takeWhile (fun c => !(c = '/' || c = '?' || c = '#' || c = ':'))
    if host = [] then none else some (jsToLower host)

/-- One pass model of the global regex replace that deletes tag like
segments: a segment from a given open angle bracket through the first
following close angle bracket is removed when at least one character
stands between them, as the class of the source pattern requires; the
first argument buffers the reversed characters read since an unmatched
open bracket. -/
def stripTagsGo : Option Str → Str → Str
  | none, [] => []
  | none, c :: r => if c = '<' then stripTagsGo (some []) r else c :: stripTagsGo none r
  | some buf, [] => '<' :: buf.reverse
  | some buf, c :: r =>
    if c = '>' then
      if buf = [] then '<' :: '>' :: stripTagsGo none r
      else stripTagsGo none r
    else stripTagsGo (some (c :: buf)) r

/-- Model of the source expression replace of the tag pattern by the
empty string. -/
def stripTags (s : Str) : Str := stripTagsGo none s

/-- Model of a global replace of one literal pattern, fuel bounded; with
fuel equal to the input length the fuel never runs out because every step
consumes at least one character. -/
def replaceAllF : Nat → Str → Str → Str → Str
  | 0, _, _, s => s
  | fuel + 1, pat, sub, s =>
    match s with
    | [] => []
    | c :: r =>
      if pat ≠ [] ∧ strStartsWith pat (c :: r) then
        sub ++ replaceAllF fuel pat sub ((c :: r).drop pat.length)
      else c :: replaceAllF fuel pat sub r

/-- Model of a global replace of one literal pattern. -/
def replaceAll (pat sub s : Str) : Str := replaceAllF s.length pat sub s

/-! ## Data shapes consumed by the search aggregators

The aggregators query remote sources; the embedding takes as input the
decoded responses of the sources, with none standing for a thrown or
timed out or non 2xx request that the source level try/catch swallows.
The fields keep the source field names. -/

/-- One merged search result. -/
structure SR where
  title : Str
  url : Str
  snippet : Str
  source : Str

/-- One entry of the RelatedTopics array of the DuckDuckGo instant
answer response; absent fields are the empty string. -/
structure Topic where
  text : Str
  furl : Str

/-- The DuckDuckGo instant answer response fields used by the code. -/
structure DdgData where
  heading : Str
  abstract : Str
  abstractURL : Str
  abstractSource : Str
  answer : Str
  relatedTopics : Option (List Topic)

/-- The Wikipedia REST summary response fields used by the MCP server. -/
structure WikiSummary where
  title : Str
  extract : Str
  pageUrl : Str

/-- One parsed result block of the DuckDuckGo HTML page, as extracted by
the scraper before trimming. -/
structure RawScrape where
  title : Str
  url : Str
  snippet : Str

/-- One hit of the Hacker News search response as used by the MCP
server. -/
structure HNHit where
  title : Str
  url : Str
  objectID : Str
  points : Option Int
  numComments : Option Int
  author : Str

/-! ## The MCP web_search tool (src/unnamed/part_000, lines 196-358) -/

/-- Model of the zod input validation of max_results: the value defaults
to 10 when absent and a supplied value outside the closed range 1 to 20
is rejected with a validation error, not clamped. -/
def validateMaxResults : Option Int → Except Unit Int
  | none => .ok 10
  | some v => if 1 ≤ v ∧ v ≤ 20 then .ok v else .error ()

/-- The RelatedTopics loop of web_search: each topic with a truthy Text
is pushed without any duplicate check; a topic whose FirstURL the URL
constructor rejects throws, aborting the rest of the DuckDuckGo section
while keeping the results already pushed. -/
def mcpTopicPush (acc : List SR) : List Topic → List SR
  | [] => acc
  | t :: ts =>
    if t.text ≠ [] then
      if t.furl ≠ [] then
        match urlHostname t.furl with
        | some h => mcpTopicPush (acc ++ [⟨h, t.furl, t.text, strL "DuckDuckGo"⟩]) ts
        | none => acc
      else mcpTopicPush (acc ++ [⟨strL "Related", t.furl, t.text, strL "DuckDuckGo"⟩]) ts
    else mcpTopicPush acc ts

/-- The DuckDuckGo instant answer section of web_search: an abstract
result, a direct answer result, then up to five related topics. -/
def mcpDdgSection (ddg : Option DdgData) : List SR :=
  match ddg with
  | none => []
  | some d =>
    let r1 : List SR :=
      if d.abstract ≠ [] then
        [⟨if d.heading ≠ [] then d.heading else strL "DuckDuckGo Result",
          d.abstractURL, d.abstract,
          if d.abstractSource ≠ [] then d.abstractSource else strL "DuckDuckGo"⟩]
      else []
    let r2 : List SR :=
      if d.answer ≠ [] then
        r1 ++ [⟨strL "Direct Answer", [], d.answer, strL "DuckDuckGo"⟩]
      else r1
    match d.relatedTopics with
    | none => r2
    | some ts => mcpTopicPush r2 (ts.take 5)

/-- The Wikipedia section of web_search: one result when the summary
extract is longer than fifty characters. -/
def mcpWikiSection (q : Str) (w : Option WikiSummary) : List SR :=
  match w with
  | none => []
  | some ws =>
    if ws.extract ≠ [] ∧ 50 < ws.extract.length then
      [⟨if ws.title ≠ [] then ws.title else q,
        if ws.pageUrl ≠ [] then ws.pageUrl
        else strL "https://en.wikipedia.org/wiki/" ++ encodeURIComponent q,
        ws.extract, strL "Wikipedia"⟩]
    else []

/-- The result element loop of the web_search scraper: stops at the
cap, requires a nonempty trimmed title and snippet, and discards an
element whose url or snippet equals one of an already accumulated
result. -/
def mcpScrapeEach (maxr : Nat) (acc : List SR) : List RawScrape → List SR
  | [] => acc
  | e :: es =>
    if maxr ≤ acc.length then acc
    else
      let title := jsTrim e.title
      let url := e.url
      let snippet := jsTrim e.snippet
      if title ≠ [] ∧ snippet ≠ [] then
        if acc.any (fun r => r.url = url || r.snippet = snippet) then
          mcpScrapeEach maxr acc es
        else mcpScrapeEach maxr (acc ++ [⟨title, url, snippet, strL "Web"⟩]) es
      else mcpScrapeEach maxr acc es

/-- The proxy loop of the web_search scraper: a failed proxy contributes
nothing and the loop moves on; a successful proxy contributes its parsed
result blocks and the loop stops once the cap is reached. -/
def mcpScrapeLoop (maxr : Nat) (acc : List SR) : List (Option (List RawScrape)) → List SR
  | [] => acc
  | none :: ps => mcpScrapeLoop maxr acc ps
  | some es :: ps =>
    let acc2 := mcpScrapeEach maxr acc es
    if maxr ≤ acc2.length then acc2 else mcpScrapeLoop maxr acc2 ps

/-- The scrape section of web_search, entered only below the cap. -/
def mcpScrapeSection (maxr : Nat) (acc : List SR)
    (pages : List (Option (List RawScrape))) : List SR :=
  if acc.length < maxr then mcpScrapeLoop maxr acc pages else acc

/-- The tech keyword list gating the Hacker News section of
web_search. -/
def techKeywords : List Str :=
  [strL "programming", strL "software", strL "code", strL "developer",
   strL "tech", strL "api", strL "javascript", strL "python", strL "react",
   strL "ai", strL "machine learning", strL "startup"]

/-- The Hacker News gate of web_search. -/
def isTechQuery (q : Str) : Bool :=
  techKeywords.any (fun kw => strContains (jsToLower q) kw)

/-- The Hacker News section of web_search: hits are pushed up to the
cap, without any duplicate check. -/
def mcpHnPush (maxr : Nat) (acc : List SR) : List HNHit → List SR
  | [] => acc
  | h :: hs =>
    if maxr ≤ acc.length then acc
    else
      mcpHnPush maxr
        (acc ++ [⟨if h.title ≠ [] then h.title else strL "Hacker News",
          if h.url ≠ [] then h.url
          else strL "https://news.ycombinator.com/item?id=" ++ h.objectID,
          intToStr ((h.points).getD 0) ++ strL " points | " ++
            intToStr ((h.numComments).getD 0) ++ strL " comments | " ++
            (if h.author ≠ [] then h.author else strL "unknown"),
          strL "Hacker News"⟩]) hs

/-- The Hacker News section of web_search, gated by the tech keyword
heuristic on the lowercased query. -/
def mcpHnSection (q : Str) (maxr : Nat) (acc : List SR)
    (hn : Option (List HNHit)) : List SR :=
  if isTechQuery q then
    match hn with
    | none => acc
    | some hits => mcpHnPush maxr acc hits
  else acc

/-- The merged result list of the web_search tool before the final
slice: the DuckDuckGo instant answers, then the Wikipedia summary, then
the scraped web results, then the Hacker News hits. -/
def webSearchResults (q : Str) (maxr : Nat) (ddg : Option DdgData)
    (wiki : Option WikiSummary) (pages : List (Option (List RawScrape)))
    (hn : Option (List HNHit)) : List SR :=
  let r2 := mcpDdgSection ddg ++ mcpWikiSection q wiki
  let r3 := mcpScrapeSection maxr r2 pages
  mcpHnSection q maxr r3 hn

/-- The result list the web_search tool renders: the merged list sliced
to max_results. -/
def webSearchOutput (q : Str) (maxr : Nat) (ddg : Option DdgData)
    (wiki : Option WikiSummary) (pages : List (Option (List RawScrape)))
    (hn : Option (List HNHit)) : List SR :=
  (webSearchResults q maxr ddg wiki pages hn).take maxr

/-! ## The browser side aggregator performWebSearch
(src/api.js, lines 1154-1388) -/

/-- One Wikipedia search API hit as used by performWebSearch; the
snippet field carries the raw html snippet, empty when absent. -/
structure WikiHit where
  title : Str
  snippetHtml : Str

/-- One Hacker News hit as used by performWebSearch.  The createdText
field carries the locale dependent rendering of the created_at date that
the source produces with toLocaleDateString; date formatting is taken as
an input of the model. -/
structure HNHit2 where
  title : Str
  url : Str
  objectID : Str
  points : Option Int
  numComments : Option Int
  author : Str
  createdText : Str

/-- One Stack Overflow item as used by performWebSearch. -/
structure SOItem where
  title : Str
  link : Str
  score : Int
  answerCount : Int
  viewCount : Int

/-- One Reddit post as used by performWebSearch. -/
structure RedditPost where
  title : Str
  permalink : Str
  subreddit : Str
  score : Int
  numComments : Int

/-- The aggregate result object returned by performWebSearch. -/
structure SearchOut where
  success : Bool
  results : List SR
  sourceLabel : Option Str
  errorMsg : Option Str

/-- Source 1 of performWebSearch: the parsed DuckDuckGo HTML results,
each pushed unless an accumulated result already carries the same
url. -/
def pwsSrc1 (acc : List SR) (scraped : Option (List SR)) : List SR :=
  match scraped with
  | none => acc
  | some rs =>
    rs.foldl (fun a r => if a.any (fun x => x.url = r.url) then a else a ++ [r]) acc

/-- The RelatedTopics loop of performWebSearch: a topic with truthy Text
is pushed unless an accumulated result already carries the same snippet;
a FirstURL the URL constructor rejects throws and aborts the rest of the
DuckDuckGo section. -/
def pwsTopics (acc : List SR) : List Topic → List SR
  | [] => acc
  | t :: ts =>
    if t.text ≠ [] ∧ ¬ acc.any (fun r => r.snippet = t.text) then
      if t.furl ≠ [] then
        match urlHostname t.furl with
        | some h => pwsTopics (acc ++ [⟨h, t.furl, t.text, strL "DuckDuckGo"⟩]) ts
        | none => acc
      else pwsTopics (acc ++ [⟨strL "Related", t.furl, t.text, strL "DuckDuckGo"⟩]) ts
    else pwsTopics acc ts

/-- Source 2 of performWebSearch: the abstract is unshifted when longer
than thirty characters, a direct answer is unshifted in front of it, and
up to three related topics are appended. -/
def pwsSrc2 (acc : List SR) (ddg : Option DdgData) : List SR :=
  match ddg with
  | none => acc
  | some d =>
    let a1 : List SR :=
      if d.abstract ≠ [] ∧ 30 < d.abstract.length then
        ⟨if d.heading ≠ [] then d.heading else strL "Quick Answer",
          d.abstractURL, d.abstract,
          if d.abstractSource ≠ [] then d.abstractSource else strL "DuckDuckGo"⟩ :: acc
      else acc
    let a2 : List SR :=
      if d.answer ≠ [] then
        ⟨strL "Direct Answer", [], d.answer, strL "DuckDuckGo"⟩ :: a1
      else a1
    match d.relatedTopics with
    | none => a2
    | some ts => pwsTopics a2 (ts.take 3)

/-- The Wikipedia article URL built by performWebSearch from a result
title. -/
def wikiUrlFromTitle (base : Str) (title : Str) : Str :=
  base ++ encodeURIComponent (replaceAll (strL " ") (strL "_") title)

/-- Sources 3 and 4 of performWebSearch: each Wikipedia search hit whose
tag stripped snippet is nonempty is pushed unless an accumulated result
already carries the same title. -/
def pwsWiki (base source : Str) (acc : List SR) (wiki : Option (List WikiHit)) : List SR :=
  match wiki with
  | none => acc
  | some hits =>
    hits.foldl (fun a h =>
      let snippet := stripTags h.snippetHtml
      if snippet ≠ [] ∧ ¬ a.any (fun r => r.title = h.title) then
        a ++ [⟨h.title, wikiUrlFromTitle base h.title, snippet, source⟩]
      else a) acc

/-- The source label of the Russian Wikipedia section, transcribed code
point for code point from the snapshot. -/
def ruWikiLabel : Str :=
  strL "\u2013\u00ed\u2013\u220f\u2013\u222b\u2013\u220f\u2013\u00f8\u2013\u00b5\u2013\u00a5\u2013\u220f\u2014\u00e8"

/-- The character class of the Russian query gate of performWebSearch.
The snapshot stores the class of the regex literal as the code points
2013, 221e, a hyphen, 2014, 00e8, 2014 and 00eb, so its middle range is
written with its bounds in decreasing order; a JavaScript engine rejects
a decreasing range, and the model reads the range as the span between the
two bounds, which is the behaviour of the originally intended class
before the double encoding of the snapshot.  The i flag is modelled by
lowercasing the tested character. -/
def hasRussianClass (c : Char) : Bool :=
  let lc := jsToLowerChar c
  lc = '\u2013' || lc = '\u00e8' || lc = '\u00eb' ||
  ('\u2014' ≤ lc && lc ≤ '\u221e')

/-- The Russian query gate of performWebSearch. -/
def hasRussian (q : Str) : Bool := q.any hasRussianClass

/-- Source 5 of performWebSearch: up to five Hacker News hits, each
pushed unless an accumulated result already carries the same title. -/
def pwsHn (acc : List SR) (hn : Option (List HNHit2)) : List SR :=
  match hn with
  | none => acc
  | some hits =>
    (hits.take 5).foldl (fun a h =>
      if h.title ≠ [] ∧ ¬ a.any (fun r => r.title = h.title) then
        a ++ [⟨h.title,
          (if h.url ≠ [] then h.url
            else strL "https://news.ycombinator.com/item?id=" ++ h.objectID),
          intToStr ((h.points).getD 0) ++ strL " points | " ++
            intToStr ((h.numComments).getD 0) ++ strL " comments | by " ++
            (if h.author ≠ [] then h.author else strL "unknown") ++
            strL " | " ++ h.createdText,
          strL "Hacker News"⟩]
      else a) acc

/-- The programming keyword list gating the Stack Overflow section of
performWebSearch, transcribed code point for code point from the
snapshot. -/
def progKeywords : List Str :=
  [strL "code", strL "error", strL "function", strL "how to",
   strL "tutorial", strL "example", strL "javascript", strL "python",
   strL "react", strL "typescript", strL "css", strL "html", strL "api",
   strL "\u2013\u00f8\u2014\u00c4\u2013\u00e6\u2013\u2265\u2014\u00c4\u2013\u221e\u2013\u00ba\u2013\u00ba\u2013\u220f\u2014\u00c4\u2013\u00e6\u2013\u2264\u2013\u221e\u2013\u03a9\u2013\u220f\u2013\u00b5",
   strL "\u2013\u00e6\u2014\u00e0\u2013\u220f\u2013\u00b1\u2013\u222b\u2013\u221e",
   strL "\u2013\u222b\u2013\u00e6\u2013\u00a5"]

/-- The Stack Overflow gate of performWebSearch. -/
def isProgrammingQuery (q : Str) : Bool :=
  progKeywords.any (fun kw => strContains (jsToLower q) kw)

/-- The html entity unescapes applied to a Stack Overflow title. -/
def soUnescapeTitle (t : Str) : Str :=
  replaceAll (strL "&amp;") (strL "&")
    (replaceAll (strL "&#39;") (strL "\x27")
      (replaceAll (strL "&quot;") (strL "\"") t))

/-- Source 6 of performWebSearch: up to three Stack Overflow items, each
pushed unless an accumulated result already carries the same link. -/
def pwsSo (acc : List SR) (so : Option (List SOItem)) : List SR :=
  match so with
  | none => acc
  | some items =>
    (items.take 3).foldl (fun a it =>
      if it.title ≠ [] ∧ ¬ a.any (fun r => r.url = it.link) then
        a ++ [⟨soUnescapeTitle it.title, it.link,
          strL "Score: " ++ intToStr it.score ++ strL " | Answers: " ++
            intToStr it.answerCount ++ strL " | Views: " ++ intToStr it.viewCount,
          strL "Stack Overflow"⟩]
      else a) acc

/-- The Reddit permalink URL built by performWebSearch. -/
def redditUrl (permalink : Str) : Str := strL "https://reddit.com" ++ permalink

/-- Source 7 of performWebSearch: up to three Reddit posts, each pushed
unless an accumulated result already carries the same permalink URL. -/
def pwsReddit (acc : List SR) (posts : Option (List RedditPost)) : List SR :=
  match posts with
  | none => acc
  | some ps =>
    (ps.take 3).foldl (fun a d =>
      if d.title ≠ [] ∧ ¬ a.any (fun r => r.url = redditUrl d.permalink) then
        a ++ [⟨d.title, redditUrl d.permalink,
          strL "r/" ++ d.subreddit ++ strL " | " ++ intToStr d.score ++
            strL " upvotes | " ++ intToStr d.numComments ++ strL " comments",
          strL "Reddit"⟩]
      else a) acc

/-- The accumulated results after source 1 of performWebSearch. -/
def pwsStage1 (scraped : Option (List SR)) : List SR := pwsSrc1 [] scraped

/-- The accumulated results after source 2. -/
def pwsStage2 (scraped : Option (List SR)) (ddg : Option DdgData) : List SR :=
  pwsSrc2 (pwsStage1 scraped) ddg

/-- The accumulated results after source 3, the English Wikipedia. -/
def pwsStage3 (scraped : Option (List SR)) (ddg : Option DdgData)
    (wiki : Option (List WikiHit)) : List SR :=
  pwsWiki (strL "https://en.wikipedia.org/wiki/") (strL "Wikipedia")
    (pwsStage2 scraped ddg) wiki

/-- The accumulated results after source 4, the Russian Wikipedia,
entered only when the query passes the Russian gate. -/
def pwsStage4 (q : Str) (scraped : Option (List SR)) (ddg : Option DdgData)
    (wiki ruWiki : Option (List WikiHit)) : List SR :=
  if hasRussian q then
    pwsWiki (strL "https://ru.wikipedia.org/wiki/") ruWikiLabel
      (pwsStage3 scraped ddg wiki) ruWiki
  else pwsStage3 scraped ddg wiki

/-- The accumulated results after source 5, Hacker News. -/
def pwsStage5 (q : Str) (scraped : Option (List SR)) (ddg : Option DdgData)
    (wiki ruWiki : Option (List WikiHit)) (hn : Option (List HNHit2)) : List SR :=
  pwsHn (pwsStage4 q scraped ddg wiki ruWiki) hn

/-- The accumulated results after source 6, Stack Overflow, entered only
when the query passes the programming gate. -/
def pwsStage6 (q : Str) (scraped : Option (List SR)) (ddg : Option DdgData)
    (wiki ruWiki : Option (List WikiHit)) (hn : Option (List HNHit2))
    (so : Option (List SOItem)) : List SR :=
  if isProgrammingQuery q then
    pwsSo (pwsStage5 q scraped ddg wiki ruWiki hn) so
  else pwsStage5 q scraped ddg wiki ruWiki hn

/-- The merged result list of performWebSearch before the final slice:
the seven sources applied in the source order, with the conditional
Russian Wikipedia and Stack Overflow gates. -/
def pwsMerged (q : Str) (scraped : Option (List SR)) (ddg : Option DdgData)
    (wiki ruWiki : Option (List WikiHit)) (hn : Option (List HNHit2))
    (so : Option (List SOItem)) (reddit : Option (List RedditPost)) : List SR :=
  pwsReddit (pwsStage6 q scraped ddg wiki ruWiki hn so) reddit

/-- Model of performWebSearch: when the merged list is nonempty the
first fifteen results are returned with success, otherwise the explicit
failure object. -/
def performWebSearch (q : Str) (scraped : Option (List SR)) (ddg : Option DdgData)
    (wiki ruWiki : Option (List WikiHit)) (hn : Option (List HNHit2))
    (so : Option (List SOItem)) (reddit : Option (List RedditPost)) : SearchOut :=
  let allResults := pwsMerged q scraped ddg wiki ruWiki hn so reddit
  if 0 < allResults.length then
    ⟨true, allResults.take 15, some (strL "multi-source"), none⟩
  else
    ⟨false, [], none, some (strL "Search failed - no results from any source")⟩

/-! ## The proxy chain fetchers (src/api.js 1043-1088 and the fetch_url
tool of src/unnamed/part_000, lines 360-442) -/

/-- The ordered CORS proxy URL builders shared by fetchUrlContent and
the MCP server, applied to a target URL. -/
def corsProxyUrls (u : Str) : List Str :=
  [strL "https://api.allorigins.win/raw?url=" ++ encodeURIComponent u,
   strL "https://corsproxy.io/?" ++ encodeURIComponent u,
   strL "https://api.codetabs.com/v1/proxy?quest=" ++ encodeURIComponent u]

/-- Walks an ordered list of proxy URLs against the per attempt outcomes
(none models a thrown, timed out or non 2xx attempt): returns the URLs
attempted, in order, and the body of the first success; a missing
outcome entry counts as a failed attempt. -/
def proxyWalk : List Str → List (Option Str) → List Str × Option Str
  | [], _ => ([], none)
  | p :: ps, rs =>
    match rs.headD none with
    | some body => ([p], some body)
    | none =>
      let w := proxyWalk ps rs.tail
      (p :: w.1, w.2)

/-- The outcome object of fetchUrlContent.  The successful branch of the
source further passes the body through extractTextFromHtml and
extractTitle, pure text transformations that are outside the scope of
the proxy chain contract; the model carries the raw body. -/
structure FetchOut where
  success : Bool
  url : Str
  body : Option Str
  errorMsg : Option Str

/-- Model of fetchUrlContent: the target URL is fetched through the
proxy list only, in order, one attempt per proxy, stopping at the first
success; exhausting the list yields the single aggregate failure
object.  The first component records the URLs attempted. -/
def fetchUrlContentRun (u : Str) (responses : List (Option Str)) :
    List Str × FetchOut :=
  let w := proxyWalk (corsProxyUrls u) responses
  match w.2 with
  | some body => (w.1, ⟨true, u, some body, none⟩)
  | none =>
    (w.1, ⟨false, u, none,
      some (strL "Failed to fetch URL content through available proxies")⟩)

/-- The outcome of the MCP fetch_url tool: an error flag and the
rendered text.  The successful branch of the source formats the body by
content type; the model carries the raw body. -/
structure McpFetchOut where
  isError : Bool
  body : Option Str
  errorText : Option Str

/-- Model of the fetch_url tool: one direct attempt at the target URL
first; on its failure each proxy is attempted once in order, stopping at
the first success; when everything failed the single aggregate error
message is rendered.  The first component records the URLs attempted. -/
def fetchUrlRun (u : Str) (direct : Option Str)
    (responses : List (Option Str)) : List Str × McpFetchOut :=
  match direct with
  | some body => ([u], ⟨false, some body, none⟩)
  | none =>
    let w := proxyWalk (corsProxyUrls u) responses
    match w.2 with
    | some body => (u :: w.1, ⟨false, some body, none⟩)
    | none =>
      (u :: w.1, ⟨true, none,
        some (strL "Error fetching URL \"" ++ u ++
          strL "\": Failed to fetch URL through all available methods")⟩)

/-! ## Statement side predicates and concrete instances used by the
claims -/

/-- The predicate of the no empty fragment claim, following the words of
the specification: the value is a non empty string. -/
def isNonEmptyStrFrag : Json → Bool
  | .str s => !s.isEmpty
  | _ => false

/-- No two results share a url, following the words of the dedup
claim. -/
def noDupUrls : List SR → Bool
  | [] => true
  | r :: rs => (!rs.any (fun x => x.url = r.url)) && noDupUrls rs

/-- No two results share a non empty snippet, following the words of the
dedup claim. -/
def noDupSnippets : List SR → Bool
  | [] => true
  | r :: rs =>
    (decide (r.snippet = []) || !rs.any (fun x => x.snippet = r.snippet)) &&
      noDupSnippets rs

/-- The dedup invariant of the claim: pairwise distinct urls and pairwise
distinct non empty snippets. -/
def dedupInvariantB (rs : List SR) : Bool := noDupUrls rs && noDupSnippets rs

/-- Two results differing both in url and in snippet. -/
def DistinctRes (a b : SR) : Prop := a.url ≠ b.url ∧ a.snippet ≠ b.snippet

/-- The results add appended to base are deduplicated against base and
among themselves. -/
def DedupAdd (base add : List SR) : Prop :=
  (∀ r ∈ add, ∀ s ∈ base, DistinctRes r s) ∧ add.Pairwise DistinctRes

/-- A complete valid two line SSE body used as concrete witness
input. -/
def c1body : Str := strL "data: \x7b\"content\":\"Hi\"\x7d\ndata: [DONE]\n"

/-- The complete prefix of the truncated witness stream. -/
def c2good : Str := strL "data: \x7b\"content\":\"Hi\"\x7d\n"

/-- The terminal mid JSON remnant of the specification example. -/
def c2bad : Str := strL "data: \x7b\"choices\":[\x7b\"delta\":\x7b\"conte"

/-- A stream whose single event carries a numeric content field. -/
def c3chunk : Str := strL "data: \x7b\"content\":5\x7d\n"

/-- A one event stream with string content. -/
def c3str : Str := strL "data: \x7b\"content\":\"Hi\"\x7d\n"

/-- A non streaming response body with a full message content. -/
def c7data : Json :=
  .obj [(strL "choices",
    .arr [.obj [(strL "message", .obj [(strL "content", .str (strL "Full"))])]])]

/-- The event of the implicit extractor claim: the highest priority
field present but empty, a bare content field carrying x. -/
def c10ev1 : Json :=
  .obj [(strL "choices",
      .arr [.obj [(strL "delta", .obj [(strL "content", .str [])])]]),
    (strL "content", .str (strL "x"))]

/-- The same event without the bare content fallback. -/
def c10ev2 : Json :=
  .obj [(strL "choices",
    .arr [.obj [(strL "delta", .obj [(strL "content", .str [])])]])]

/-- An event with an empty delta content next to a delta text field. -/
def c10ev3 : Json :=
  .obj [(strL "choices",
    .arr [.obj [(strL "delta",
      .obj [(strL "content", .str []), (strL "text", .str (strL "x"))])]])]

/-- A DuckDuckGo response whose related topics share one URL. -/
def cex5ddg : DdgData :=
  ⟨[], [], [], [], [],
    some [⟨strL "A", strL "https://x"⟩, ⟨strL "B", strL "https://x"⟩]⟩

/-- Fifteen scraped results with pairwise distinct urls. -/
def c4scraped : List SR :=
  (List.range 15).map (fun i => ⟨strL "t", strL "u" ++ natToStr i, strL "s", strL "Web"⟩)

/-! ## Structural lemmas about line splitting -/

theorem splitAtNl_post_lt :
    ∀ s pre post, splitAtNl s = some (pre, post) → post.length < s.length := by
  intro s
  induction s with
  | nil => intro pre post h; simp [splitAtNl] at h
  | cons c rest ih =>
    intro pre post h
    simp only [splitAtNl] at h
    split at h
    · cases h
      simp
    · cases hs : splitAtNl rest with
      | none => rw [hs] at h; cases h
      | some pr =>
        rw [hs] at h
        cases h
        have := ih pr.1 pr.2 (by rw [hs])
        simp only [List.length_cons]
        omega

theorem splitAtNl_none {s : Str} (h : splitAtNl s = none) : nlSplit s = ([], s) := by
  induction s with
  | nil => simp [nlSplit]
  | cons c rest ih =>
    simp only [splitAtNl] at h
    split at h
    · cases h
    · cases hs : splitAtNl rest with
      | none =>
        have hr := ih hs
        simp only [nlSplit]
        rw [if_neg (by assumption)]
        rw [hr]
      | some pr => rw [hs] at h; cases h

theorem splitAtNl_some {s pre post : Str}
    (h : splitAtNl s = some (pre, post)) :
    s = pre ++ '\n' :: post ∧
      nlSplit s = (pre :: (nlSplit post).1, (nlSplit post).2) := by
  induction s generalizing pre post with
  | nil => simp [splitAtNl] at h
  | cons c rest ih =>
    simp only [splitAtNl] at h
    split at h
    · rename_i hc
      cases h
      subst hc
      constructor
      · simp
      · simp [nlSplit]
    · rename_i hc
      cases hs : splitAtNl rest with
      | none => rw [hs] at h; cases h
      | some pr =>
        obtain ⟨pre2, post2⟩ := pr
        rw [hs] at h
        cases h
        obtain ⟨h1, h2⟩ := ih hs
        constructor
        · simp [h1]
        · simp only [nlSplit, if_neg hc, h2]

theorem nlSplit_noNl {s : Str} (h : noNl s = true) : nlSplit s = ([], s) := by
  induction s with
  | nil => simp [nlSplit]
  | cons c rest ih =>
    simp only [noNl, List.all_cons, Bool.and_eq_true] at h
    obtain ⟨hc, hr⟩ := h
    have hc2 : ¬ (c = '\n') := by
      intro hh; subst hh; simp at hc
    simp only [nlSplit, if_neg hc2, ih hr]

theorem nlSplit_tail_noNl (s : Str) : noNl (nlSplit s).2 = true := by
  induction s with
  | nil => simp [nlSplit, noNl]
  | cons c rest ih =>
    simp only [nlSplit]
    split
    · exact ih
    · cases hr : nlSplit rest with
      | mk ls t =>
        cases ls with
        | nil =>
          rw [hr] at ih
          simp only [noNl, List.all_cons, Bool.and_eq_true]
          refine ⟨?_, ih⟩
          rename_i hc
          simp [hc]
        | cons l ls2 =>
          rw [hr] at ih
          exact ih

theorem nlSplit_cons_nl (s : Str) :
    nlSplit ('\n' :: s) = ([] :: (nlSplit s).1, (nlSplit s).2) := by
  simp [nlSplit]

theorem nlSplit_cons_nn {c : Char} (hc : ¬ c = '\n') (s : Str) :
    nlSplit (c :: s) =
      (match nlSplit s with
        | ([], t) => ([], c :: t)
        | (l :: ls, t) => ((c :: l) :: ls, t)) := by
  simp [nlSplit, hc]

theorem splitNl_eq (s : Str) : splitNl s = (nlSplit s).1 ++ [(nlSplit s).2] := by
  induction s with
  | nil => simp [splitNl, nlSplit]
  | cons c rest ih =>
    by_cases hc : c = '\n'
    · subst hc
      rw [nlSplit_cons_nl]
      simp only [splitNl, if_pos rfl, ih]
      simp
    · rw [nlSplit_cons_nn hc]
      simp only [splitNl, if_neg hc]
      cases hr : nlSplit rest with
      | mk ls t =>
        rw [hr] at ih
        rw [ih]
        cases ls with
        | nil => simp
        | cons l ls2 => simp

theorem nlSplit_append (a b : Str) :
    nlSplit (a ++ b) =
      ((nlSplit a).1 ++ (nlSplit ((nlSplit a).2 ++ b)).1,
        (nlSplit ((nlSplit a).2 ++ b)).2) := by
  induction a with
  | nil => simp [nlSplit]
  | cons c rest ih =>
    by_cases hc : c = '\n'
    · subst hc
      have h1 : ('\n' :: rest) ++ b = '\n' :: (rest ++ b) := rfl
      rw [h1, nlSplit_cons_nl, nlSplit_cons_nl, ih]
      simp
    · have h1 : (c :: rest) ++ b = c :: (rest ++ b) := rfl
      rw [h1, nlSplit_cons_nn hc, nlSplit_cons_nn hc, ih]
      cases hr : nlSplit rest with
      | mk ls t =>
        cases ls with
        | nil =>
          simp only [List.nil_append]
          cases hq : nlSplit (t ++ b) with
          | mk qs qt =>
            cases qs with
            | nil =>
              have h2 : c :: t ++ b = c :: (t ++ b) := rfl
              simp only [h2, nlSplit_cons_nn hc, hq]
            | cons q qs2 =>
              have h2 : c :: t ++ b = c :: (t ++ b) := rfl
              simp only [h2, nlSplit_cons_nn hc, hq]
        | cons l ls2 =>
          simp

/-! ## The decoder computes the per line normal form on consumable bodies -/

theorem jemit_eq {l : Str} {c : Option Json} (h : processLine l = .ok c) :
    jemit c = (lineFrag l).toList := by
  unfold lineFrag
  rw [h]
  cases c with
  | none => simp [jemit]
  | some v =>
    by_cases hv : jtruthy v = true
    · simp [jemit, hv]
    · simp only [Bool.not_eq_true] at hv
      simp [jemit, hv]

theorem lineFrag_blank {l : Str} (h : jsTrim l = []) : lineFrag l = none := by
  unfold lineFrag processLine
  simp [h]

theorem innerLoopAux (fuel : Nat) :
    ∀ b : Str, b.length ≤ fuel → (nlSplit b).1.all goodLineB = true →
      innerLoopF fuel [] b = ((nlSplit b).1.filterMap lineFrag, (nlSplit b).2) := by
  induction fuel with
  | zero =>
    intro b hb _
    have hbe : b = [] := by
      cases b with
      | nil => rfl
      | cons x xs => simp at hb
    subst hbe
    simp [innerLoopF, nlSplit]
  | succ n ih =>
    intro b hb hok
    cases hs : splitAtNl b with
    | none =>
      simp only [innerLoopF, hs]
      rw [splitAtNl_none hs]
      simp
    | some pr =>
      obtain ⟨pre, post⟩ := pr
      obtain ⟨hbeq, hsplit⟩ := splitAtNl_some hs
      have hlen : post.length ≤ n := by
        have := splitAtNl_post_lt b pre post hs
        omega
      rw [hsplit] at hok
      simp only [List.all_cons, Bool.and_eq_true] at hok
      obtain ⟨hgood, hok2⟩ := hok
      simp only [innerLoopF, hs, List.nil_append]
      by_cases ht : jsTrim pre = []
      · rw [if_pos ht]
        rw [ih post hlen hok2, hsplit]
        simp [lineFrag_blank ht]
      · rw [if_neg ht]
        cases hp : processLine pre with
        | incomplete =>
          exfalso
          unfold goodLineB at hgood
          rw [hp] at hgood
          simp at hgood
        | ok c =>
          dsimp only
          rw [ih post hlen hok2, hsplit]
          simp only [List.filterMap_cons]
          rw [jemit_eq hp]
          unfold lineFrag
          rw [hp]
          cases c with
          | none => simp
          | some v =>
            by_cases hv : jtruthy v = true
            · simp [hv]
            · simp only [Bool.not_eq_true] at hv
              simp [hv]

theorem innerLoop_norm (b : Str) (hok : (nlSplit b).1.all goodLineB = true) :
    innerLoop [] b = ((nlSplit b).1.filterMap lineFrag, (nlSplit b).2) :=
  innerLoopAux b.length b le_rfl hok

theorem feedChunks_norm :
    ∀ cs buffer, noNl buffer = true →
      linesOkB (buffer ++ concatChunks cs) = true →
      feedChunks cs buffer = sseNorm (buffer ++ concatChunks cs) := by
  intro cs
  induction cs with
  | nil =>
    intro buffer hb _
    have hc : concatChunks ([] : List Str) = [] := rfl
    rw [hc, List.append_nil]
    unfold feedChunks finalFlush sseNorm
    rw [splitNl_eq, nlSplit_noNl hb]
    by_cases ht : jsTrim buffer = []
    · rw [if_pos ht]
      simp [lineFrag_blank ht]
    · rw [if_neg ht]
  | cons c cs ih =>
    intro buffer hb hok
    have hdecomp : buffer ++ concatChunks (c :: cs) = (buffer ++ c) ++ concatChunks cs := by
      simp [concatChunks, List.append_assoc]
    rw [hdecomp] at hok ⊢
    have happ := nlSplit_append (buffer ++ c) (concatChunks cs)
    unfold linesOkB at hok
    rw [happ] at hok
    simp only [List.all_append, Bool.and_eq_true] at hok
    have hIL := innerLoop_norm (buffer ++ c) hok.1
    have hfeed : feedChunks (c :: cs) buffer =
        (innerLoop [] (buffer ++ c)).1 ++ feedChunks cs (innerLoop [] (buffer ++ c)).2 := rfl
    rw [hfeed, hIL]
    dsimp only
    have hok2 : linesOkB ((nlSplit (buffer ++ c)).2 ++ concatChunks cs) = true := by
      unfold linesOkB
      exact hok.2
    rw [ih (nlSplit (buffer ++ c)).2 (nlSplit_tail_noNl (buffer ++ c)) hok2]
    unfold sseNorm
    rw [splitNl_eq, splitNl_eq, happ]
    simp [List.filterMap_append]

/-- Any chunking of a body all of whose newline terminated lines are
consumable decodes to the per line normal form. -/
theorem sseDecode_norm {cs : List Str} {body : Str}
    (hcs : concatChunks cs = body) (hok : linesOkB body = true) :
    sseDecode cs = sseNorm body := by
  subst hcs
  unfold sseDecode
  have h0 : noNl ([] : Str) = true := rfl
  have := feedChunks_norm cs [] h0 (by simpa using hok)
  simpa using this

theorem validLine_good {l : Str} (h : validLineB l = true) : goodLineB l = true := by
  unfold goodLineB processLine
  by_cases h1 : jsTrim l = []
  · simp [h1]
  · by_cases h2 : jsTrim l = doneMark
    · simp [h2]
    · unfold validLineB at h
      simp [h1, h2] at h
      obtain ⟨h3, h4⟩ := h
      obtain ⟨j, hj⟩ := Option.isSome_iff_exists.mp h4
      simp [h1, h2, h3, hj]

theorem validBody_linesOk {s : Str} (h : validBodyB s = true) : linesOkB s = true := by
  unfold validBodyB at h
  unfold linesOkB
  rw [splitNl_eq] at h
  simp only [List.all_append, Bool.and_eq_true] at h
  refine List.all_eq_true.mpr ?_
  intro l hl
  exact validLine_good (List.all_eq_true.mp h.1 l hl)

/-! ## Truthiness of every yielded fragment -/

theorem jemit_truthy {c : Option Json} {v : Json} (h : v ∈ jemit c) :
    jtruthy v = true := by
  cases c with
  | none => simp [jemit] at h
  | some w =>
    cases hw : jtruthy w with
    | false => simp [jemit, hw] at h
    | true =>
      simp [jemit, hw] at h
      subst h
      exact hw

theorem lineFrag_truthy {l : Str} {v : Json} (h : lineFrag l = some v) :
    jtruthy v = true := by
  unfold lineFrag at h
  cases hp : processLine l with
  | incomplete => rw [hp] at h; simp at h
  | ok c =>
    rw [hp] at h
    cases c with
    | none => simp at h
    | some w =>
      cases hw : jtruthy w with
      | false => simp [hw] at h
      | true =>
        simp [hw] at h
        subst h
        exact hw

theorem innerLoopF_truthy :
    ∀ fuel pending rest v, v ∈ (innerLoopF fuel pending rest).1 →
      jtruthy v = true := by
  intro fuel
  induction fuel with
  | zero => intro pending rest v hv; simp [innerLoopF] at hv
  | succ n ih =>
    intro pending rest v hv
    cases hs : splitAtNl rest with
    | none => simp [innerLoopF, hs] at hv
    | some pr =>
      obtain ⟨pre, post⟩ := pr
      simp only [innerLoopF, hs] at hv
      by_cases ht : jsTrim (pending ++ pre) = []
      · rw [if_pos ht] at hv
        exact ih [] post v hv
      · rw [if_neg ht] at hv
        cases hp : processLine (pending ++ pre) with
        | incomplete =>
          rw [hp] at hv
          dsimp only at hv
          by_cases hpost : post = []
          · rw [if_pos hpost] at hv; simp at hv
          · rw [if_neg hpost] at hv
            exact ih _ post v hv
        | ok c =>
          rw [hp] at hv
          dsimp only at hv
          rw [List.mem_append] at hv
          rcases hv with hv | hv
          · exact jemit_truthy hv
          · exact ih [] post v hv

theorem finalFlush_truthy {buffer : Str} {v : Json} (hv : v ∈ finalFlush buffer) :
    jtruthy v = true := by
  unfold finalFlush at hv
  by_cases ht : jsTrim buffer = []
  · rw [if_pos ht] at hv; simp at hv
  · rw [if_neg ht] at hv
    rw [List.mem_filterMap] at hv
    obtain ⟨l, _, hl⟩ := hv
    exact lineFrag_truthy hl

theorem feedChunks_truthy :
    ∀ cs buffer v, v ∈ feedChunks cs buffer → jtruthy v = true := by
  intro cs
  induction cs with
  | nil => intro buffer v hv; exact finalFlush_truthy hv
  | cons c cs ih =>
    intro buffer v hv
    have hstep : feedChunks (c :: cs) buffer =
        (innerLoop [] (buffer ++ c)).1 ++
          feedChunks cs (innerLoop [] (buffer ++ c)).2 := rfl
    rw [hstep, List.mem_append] at hv
    rcases hv with hv | hv
    · unfold innerLoop at hv
      exact innerLoopF_truthy _ [] _ v hv
    · exact ih _ v hv

/-! ## Length monotonicity of the aggregation stages -/

theorem foldl_len_mono {β : Type} (f : List SR → β → List SR)
    (hf : ∀ a x, a.length ≤ (f a x).length) :
    ∀ (l : List β) (a : List SR), a.length ≤ (l.foldl f a).length := by
  intro l
  induction l with
  | nil => intro a; simp
  | cons x xs ih => intro a; exact le_trans (hf a x) (ih (f a x))

theorem pwsSrc1_len (acc : List SR) (s : Option (List SR)) :
    acc.length ≤ (pwsSrc1 acc s).length := by
  cases s with
  | none => simp [pwsSrc1]
  | some rs =>
    unfold pwsSrc1
    refine foldl_len_mono _ ?_ rs acc
    intro a x
    split <;> simp

theorem len_le_ite_cons (c : Prop) [Decidable c] (x : SR) (a : List SR) :
    a.length ≤ (if c then x :: a else a).length := by
  split <;> simp

theorem pwsTopics_len : ∀ (ts : List Topic) (acc : List SR),
    acc.length ≤ (pwsTopics acc ts).length := by
  intro ts
  induction ts with
  | nil => intro acc; simp [pwsTopics]
  | cons t ts ih =>
    intro acc
    unfold pwsTopics
    split
    · split
      · cases urlHostname t.furl with
        | none => simp
        | some h => exact le_trans (by simp) (ih _)
      · exact le_trans (by simp) (ih _)
    · exact ih acc

theorem pwsSrc2_len (acc : List SR) (d : Option DdgData) :
    acc.length ≤ (pwsSrc2 acc d).length := by
  cases d with
  | none => simp [pwsSrc2]
  | some d =>
    cases hr : d.relatedTopics with
    | none =>
      unfold pwsSrc2
      dsimp only
      rw [hr]
      exact le_trans (len_le_ite_cons _ _ _) (len_le_ite_cons _ _ _)
    | some ts =>
      unfold pwsSrc2
      dsimp only
      rw [hr]
      exact le_trans (le_trans (len_le_ite_cons _ _ _) (len_le_ite_cons _ _ _))
        (pwsTopics_len _ _)

theorem pwsWiki_len (base source : Str) (acc : List SR) (w : Option (List WikiHit)) :
    acc.length ≤ (pwsWiki base source acc w).length := by
  cases w with
  | none => simp [pwsWiki]
  | some hits =>
    unfold pwsWiki
    refine foldl_len_mono _ ?_ hits acc
    intro a x
    dsimp only
    split <;> simp

theorem pwsHn_len (acc : List SR) (hn : Option (List HNHit2)) :
    acc.length ≤ (pwsHn acc hn).length := by
  cases hn with
  | none => simp [pwsHn]
  | some hits =>
    unfold pwsHn
    refine foldl_len_mono _ ?_ (hits.take 5) acc
    intro a x
    dsimp only
    split <;> simp

theorem pwsSo_len (acc : List SR) (so : Option (List SOItem)) :
    acc.length ≤ (pwsSo acc so).length := by
  cases so with
  | none => simp [pwsSo]
  | some items =>
    unfold pwsSo
    refine foldl_len_mono _ ?_ (items.take 3) acc
    intro a x
    dsimp only
    split <;> simp

theorem pwsReddit_len (acc : List SR) (posts : Option (List RedditPost)) :
    acc.length ≤ (pwsReddit acc posts).length := by
  cases posts with
  | none => simp [pwsReddit]
  | some ps =>
    unfold pwsReddit
    refine foldl_len_mono _ ?_ (ps.take 3) acc
    intro a x
    dsimp only
    split <;> simp

/-! ## The scrape phase dedup invariant of web_search -/

theorem DistinctRes.symm {a b : SR} (h : DistinctRes a b) : DistinctRes b a :=
  ⟨h.1.symm, h.2.symm⟩

theorem dedupAdd_nil (base : List SR) : DedupAdd base [] := by
  constructor
  · intro r hr; simp at hr
  · exact List.Pairwise.nil

theorem dedupAdd_comp {base a1 a2 : List SR}
    (h1 : DedupAdd base a1) (h2 : DedupAdd (base ++ a1) a2) :
    DedupAdd base (a1 ++ a2) := by
  constructor
  · intro r hr s hs
    rw [List.mem_append] at hr
    rcases hr with hr | hr
    · exact h1.1 r hr s hs
    · exact h2.1 r hr s (by rw [List.mem_append]; exact Or.inl hs)
  · rw [List.pairwise_append]
    refine ⟨h1.2, h2.2, ?_⟩
    intro x hx y hy
    exact (h2.1 y hy x (by rw [List.mem_append]; exact Or.inr hx)).symm

theorem mcpScrapeEach_spec :
    ∀ (es : List RawScrape) (maxr : Nat) (acc : List SR),
      ∃ add, mcpScrapeEach maxr acc es = acc ++ add ∧ DedupAdd acc add := by
  intro es
  induction es with
  | nil =>
    intro maxr acc
    exact ⟨[], by simp [mcpScrapeEach], dedupAdd_nil acc⟩
  | cons e es ih =>
    intro maxr acc
    unfold mcpScrapeEach
    by_cases hcap : maxr ≤ acc.length
    · rw [if_pos hcap]
      exact ⟨[], by simp, dedupAdd_nil acc⟩
    · rw [if_neg hcap]
      dsimp only
      by_cases hts : jsTrim e.title ≠ [] ∧ jsTrim e.snippet ≠ []
      · rw [if_pos hts]
        by_cases hdup :
            acc.any (fun r => r.url = e.url || r.snippet = jsTrim e.snippet) = true
        · rw [if_pos hdup]
          exact ih maxr acc
        · rw [if_neg hdup]
          obtain ⟨add2, heq, hded⟩ :=
            ih maxr (acc ++ [⟨jsTrim e.title, e.url, jsTrim e.snippet, strL "Web"⟩])
          refine ⟨⟨jsTrim e.title, e.url, jsTrim e.snippet, strL "Web"⟩ :: add2,
            by rw [heq]; simp, ?_⟩
          have hfresh : ∀ s ∈ acc,
              DistinctRes ⟨jsTrim e.title, e.url, jsTrim e.snippet, strL "Web"⟩ s := by
            intro s hs
            simp only [List.any_eq_true, not_exists, not_and, Bool.or_eq_true,
              decide_eq_true_eq] at hdup
            have := hdup
            push_neg at this
            obtain ⟨h1, h2⟩ := this s hs
            exact ⟨fun hc => h1 hc.symm, fun hc => h2 hc.symm⟩
          constructor
          · intro r hr s hs
            rcases List.mem_cons.mp hr with hr | hr
            · subst hr; exact hfresh s hs
            · exact hded.1 r hr s (by rw [List.mem_append]; exact Or.inl hs)
          · refine List.Pairwise.cons ?_ hded.2
            intro y hy
            exact (hded.1 y hy _ (by rw [List.mem_append]; simp)).symm
      · rw [if_neg hts]
        exact ih maxr acc

theorem mcpScrapeLoop_spec :
    ∀ (pages : List (Option (List RawScrape))) (maxr : Nat) (acc : List SR),
      ∃ add, mcpScrapeLoop maxr acc pages = acc ++ add ∧ DedupAdd acc add := by
  intro pages
  induction pages with
  | nil =>
    intro maxr acc
    exact ⟨[], by simp [mcpScrapeLoop], dedupAdd_nil acc⟩
  | cons p ps ih =>
    intro maxr acc
    cases p with
    | none =>
      obtain ⟨add, heq, hd⟩ := ih maxr acc
      exact ⟨add, by rw [mcpScrapeLoop, heq], hd⟩
    | some es =>
      obtain ⟨add1, heq1, hd1⟩ := mcpScrapeEach_spec es maxr acc
      rw [mcpScrapeLoop]
      rw [heq1]
      by_cases hcap : maxr ≤ (acc ++ add1).length
      · rw [if_pos hcap]
        exact ⟨add1, rfl, hd1⟩
      · rw [if_neg hcap]
        obtain ⟨add2, heq2, hd2⟩ := ih maxr (acc ++ add1)
        exact ⟨add1 ++ add2, by rw [heq2]; simp, dedupAdd_comp hd1 hd2⟩

/-! ## Facts about the proxy walk -/

theorem proxyWalk_isPrefix : ∀ (ps : List Str) (rs : List (Option Str)),
    (proxyWalk ps rs).1 <+: ps := by
  intro ps
  induction ps with
  | nil => intro rs; simp [proxyWalk]
  | cons p ps ih =>
    intro rs
    unfold proxyWalk
    cases h : rs.headD none with
    | some b => simp
    | none =>
      dsimp only
      obtain ⟨t, ht⟩ := ih rs.tail
      exact ⟨t, by rw [List.cons_append, ht]⟩

theorem proxyWalk_allNone :
    ∀ (ps : List Str) (rs : List (Option Str)), (∀ r ∈ rs, r = none) →
      proxyWalk ps rs = (ps, none) := by
  intro ps
  induction ps with
  | nil => intro rs _; simp [proxyWalk]
  | cons p ps ih =>
    intro rs hall
    unfold proxyWalk
    have hh : rs.headD none = none := by
      cases rs with
      | nil => rfl
      | cons r rs2 => exact hall r (by simp)
    rw [hh]
    have ht : ∀ r ∈ rs.tail, r = none := by
      intro r hr
      cases rs with
      | nil => simp at hr
      | cons x xs => exact hall r (by simp at hr ⊢; exact Or.inr hr)
    rw [ih rs.tail ht]

/-! ## The claims -/

/-- C1: chunking independence of the streaming decoder.  For every
complete, valid SSE stream body, decoding it with streamChatCompletion
produces the same sequence of text fragments, hence the same
concatenation, regardless of how the body is split into raw chunks. -/
theorem claim1_chunking_independence (body : Str) (cs1 cs2 : List Str)
    (hvalid : validBodyB body = true)
    (h1 : concatChunks cs1 = body) (h2 : concatChunks cs2 = body) :
    sseDecode cs1 = sseDecode cs2 := by
  have hok := validBody_linesOk hvalid
  rw [sseDecode_norm h1 hok, sseDecode_norm h2 hok]

theorem claim1_witness :
    validBodyB c1body = true ∧
    sseDecode [c1body] = sseDecode (c1body.map (fun c => [c])) :=
  ⟨by decide,
    claim1_chunking_independence c1body [c1body] (c1body.map (fun c => [c]))
      (by decide) rfl rfl⟩

/-- C2: terminal fragment tolerance.  A stream whose body is a complete
valid prefix followed by a terminal mid JSON remnant with no newline
decodes, for any chunking, to exactly the fragments of the complete
prefix: the decoder terminates with a plain value (the embedding is a
total function, the parse failure of the remnant lands in the silent
catch branch), and the remnant contributes no fragment. -/
theorem claim2_terminal_fragment_tolerance (good bad : Str) (cs : List Str)
    (hvalid : validBodyB good = true)
    (hcomplete : (nlSplit good).2 = [])
    (hnl : noNl bad = true)
    (hbad : processLine bad = .incomplete)
    (hcs : concatChunks cs = good ++ bad) :
    sseDecode cs = sseNorm good ∧ lineFrag bad = none := by
  have hfrag : lineFrag bad = none := by
    unfold lineFrag
    rw [hbad]
  refine ⟨?_, hfrag⟩
  have happ := nlSplit_append good bad
  rw [hcomplete] at happ
  simp only [List.nil_append] at happ
  rw [nlSplit_noNl hnl] at happ
  have hok : linesOkB (good ++ bad) = true := by
    unfold linesOkB
    rw [happ]
    dsimp only
    rw [List.append_nil]
    have h := validBody_linesOk hvalid
    unfold linesOkB at h
    exact h
  rw [sseDecode_norm hcs hok]
  unfold sseNorm
  rw [splitNl_eq, splitNl_eq, happ, hcomplete]
  simp [List.filterMap_append, hfrag, lineFrag_blank (show jsTrim [] = [] from rfl)]

theorem claim2_witness :
    sseDecode [c2good ++ c2bad] = sseNorm c2good ∧ lineFrag c2bad = none :=
  claim2_terminal_fragment_tolerance c2good c2bad [c2good ++ c2bad]
    (by decide) (by decide) (by decide) rfl rfl

/-- C3, counterexample: the claim that every yielded fragment is a non
empty string fails on the code.  A data event whose content field holds
the number five is truthy, so the decoder yields the number itself,
which is not a string at all. -/
theorem claim3_counterexample :
    sseDecode [c3chunk] = [Json.num 5 0] ∧
    isNonEmptyStrFrag (Json.num 5 0) = false :=
  ⟨rfl, rfl⟩

/-- C3, amended: every fragment yielded by the decoder, on the streaming
and the non streaming paths alike, is truthy: never null, never the
empty string, and when it is a string it is a non empty one.  A JSON
event with no emittable content produces null from the extractor and is
filtered before reaching the caller. -/
theorem claim3_amended :
    (∀ cs v, v ∈ sseDecode cs → jtruthy v = true) ∧
    (∀ data v, v ∈ nonStreamYield data → jtruthy v = true) := by
  constructor
  · intro cs v hv
    exact feedChunks_truthy cs [] v hv
  · intro data v hv
    unfold nonStreamYield at hv
    cases h : nonStreamContent data with
    | none => rw [h] at hv; simp at hv
    | some w =>
      rw [h] at hv
      cases hw : jtruthy w with
      | false => simp [hw] at hv
      | true =>
        simp [hw] at hv
        subst hv
        exact hw

theorem claim3_witness : jtruthy (Json.str (strL "Hi")) = true :=
  claim3_amended.1 [c3str] (Json.str (strL "Hi"))
    (by rw [show sseDecode [c3str] = [Json.str (strL "Hi")] from rfl]
        exact List.mem_singleton.mpr rfl)

/-- C7: for the model id claude-opus-4.5-thinking with streaming
requested, the policy forces the non streaming transport, so the request
is issued with the stream flag false; the non streaming decoder then
yields exactly one fragment equal to the full message content of the
response whenever that content is truthy. -/
theorem claim7_policy_thinking_nonstreaming :
    useStreaming (strL "claude-opus-4.5-thinking") false = false ∧
    (∀ data v, nonStreamContent data = some v → jtruthy v = true →
      nonStreamYield data = [v]) := by
  constructor
  · decide
  · intro data v h ht
    unfold nonStreamYield
    rw [h]
    simp [ht]

theorem claim7_witness : nonStreamYield c7data = [Json.str (strL "Full")] :=
  claim7_policy_thinking_nonstreaming.2 c7data (Json.str (strL "Full")) rfl rfl

/-- C4, counterexample: the cap claim fails on the code in two ways.  A
supplied max_results of 25 is rejected by the zod schema with a
validation error instead of being clamped to 20; and the browser side
aggregator performWebSearch takes no max_results at all and happily
returns more than the claimed default of ten results, since its only cap
is the fixed slice at fifteen. -/
theorem claim4_counterexample :
    validateMaxResults (some 25) = .error () ∧
    ¬ validateMaxResults (some 25) = .ok 20 ∧
    10 < (performWebSearch (strL "q") (some c4scraped)
      none none none none none none).results.length := by
  refine ⟨rfl, ?_, by decide⟩
  intro h
  rw [show validateMaxResults (some 25) = Except.error () from rfl] at h
  exact Except.noConfusion h

/-- C4, amended: max_results of the MCP web_search tool defaults to 10
when unspecified, a supplied value inside the closed range 1 to 20 is
accepted as is, a supplied value outside it is rejected by the schema
(not clamped), and the rendered result list never exceeds max_results;
the browser side performWebSearch has no max_results parameter and caps
its result list at fifteen. -/
theorem claim4_amended :
    validateMaxResults none = .ok 10 ∧
    (∀ v : Int, 1 ≤ v → v ≤ 20 → validateMaxResults (some v) = .ok v) ∧
    (∀ v : Int, v < 1 ∨ 20 < v → validateMaxResults (some v) = .error ()) ∧
    (∀ q maxr ddg wiki pages hn,
      (webSearchOutput q maxr ddg wiki pages hn).length ≤ maxr) ∧
    (∀ q scraped ddg wiki ruWiki hn so reddit,
      (performWebSearch q scraped ddg wiki ruWiki hn so reddit).results.length ≤ 15) := by
  refine ⟨rfl, ?_, ?_, ?_, ?_⟩
  · intro v h1 h2
    unfold validateMaxResults
    dsimp only
    rw [if_pos ⟨h1, h2⟩]
  · intro v h
    unfold validateMaxResults
    dsimp only
    rw [if_neg (show ¬ (1 ≤ v ∧ v ≤ 20) by omega)]
  · intro q maxr ddg wiki pages hn
    unfold webSearchOutput
    exact List.length_take_le _ _
  · intro q scraped ddg wiki ruWiki hn so reddit
    unfold performWebSearch
    dsimp only
    split
    · exact List.length_take_le _ _
    · simp

theorem claim4_witness :
    1 ≤ (7 : Int) ∧ (7 : Int) ≤ 20 ∧ validateMaxResults (some 7) = .ok 7 :=
  ⟨by decide, by decide, claim4_amended.2.1 7 (by decide) (by decide)⟩

/-- C5, counterexample: the dedup invariant fails on the full output of
the aggregator.  Two related topics of the quick answer source that
share one URL are both pushed, because the quick answer pushes of
web_search carry no duplicate check at all, so the rendered output holds
two results with the same url. -/
theorem claim5_counterexample :
    (webSearchOutput (strL "q") 10 (some cex5ddg) none [] none).map (fun r => r.url) =
      [strL "https://x", strL "https://x"] ∧
    dedupInvariantB (webSearchOutput (strL "q") 10 (some cex5ddg) none [] none) = false :=
  ⟨rfl, rfl⟩

/-- C5, amended: deduplication by exact url and exact snippet equality
is the contract of the HTML scrape phase only.  Every result that phase
appends differs in url and in snippet from every result already merged
and from every other result the phase appends, and on a dedup hit the
later element is the one discarded while the earlier accumulated list
passes through unchanged.  Results added by the other sources are not
checked against url or snippet, so the invariant does not extend to the
whole output. -/
theorem claim5_amended :
    (∀ pages maxr acc, ∃ add,
      mcpScrapeLoop maxr acc pages = acc ++ add ∧ DedupAdd acc add) ∧
    (∀ maxr acc e es, ¬ maxr ≤ acc.length →
      jsTrim e.title ≠ [] ∧ jsTrim e.snippet ≠ [] →
      acc.any (fun r => r.url = e.url || r.snippet = jsTrim e.snippet) = true →
      mcpScrapeEach maxr acc (e :: es) = mcpScrapeEach maxr acc es) := by
  refine ⟨mcpScrapeLoop_spec, ?_⟩
  intro maxr acc e es hcap hts hdup
  conv_lhs => rw [mcpScrapeEach]
  rw [if_neg hcap]
  dsimp only
  rw [if_pos hts, if_pos hdup]

theorem claim5_witness :
    mcpScrapeEach 10 [⟨strL "t", strL "u", strL "s", strL "Web"⟩]
      [⟨strL "t2", strL "u", strL "s2"⟩] =
      [⟨strL "t", strL "u", strL "s", strL "Web"⟩] :=
  (claim5_amended.2 10 [⟨strL "t", strL "u", strL "s", strL "Web"⟩]
    ⟨strL "t2", strL "u", strL "s2"⟩ [] (by decide) (by decide) (by decide)).trans rfl

/-- C6: the browser aggregator is total and its success flag reflects
contribution.  For all source responses the returned object either has
success with a nonempty result list or is exactly the degenerate failure
object; success is true exactly when some source strictly grew the
merged list, that is, contributed at least one result; and when every
source fails the output is the failure object with an empty result
list. -/
theorem claim6_success_iff_contribution :
    (∀ q scraped ddg wiki ruWiki hn so reddit,
      ((performWebSearch q scraped ddg wiki ruWiki hn so reddit).success = true ↔
        (0 < (pwsStage1 scraped).length ∨
         (pwsStage1 scraped).length < (pwsStage2 scraped ddg).length ∨
         (pwsStage2 scraped ddg).length < (pwsStage3 scraped ddg wiki).length ∨
         (pwsStage3 scraped ddg wiki).length <
           (pwsStage4 q scraped ddg wiki ruWiki).length ∨
         (pwsStage4 q scraped ddg wiki ruWiki).length <
           (pwsStage5 q scraped ddg wiki ruWiki hn).length ∨
         (pwsStage5 q scraped ddg wiki ruWiki hn).length <
           (pwsStage6 q scraped ddg wiki ruWiki hn so).length ∨
         (pwsStage6 q scraped ddg wiki ruWiki hn so).length <
           (pwsMerged q scraped ddg wiki ruWiki hn so reddit).length))) ∧
    (∀ q scraped ddg wiki ruWiki hn so reddit,
      ((performWebSearch q scraped ddg wiki ruWiki hn so reddit).success = true ∧
        (performWebSearch q scraped ddg wiki ruWiki hn so reddit).results ≠ []) ∨
      performWebSearch q scraped ddg wiki ruWiki hn so reddit =
        ⟨false, [], none, some (strL "Search failed - no results from any source")⟩) ∧
    (∀ q, performWebSearch q none none none none none none none =
      ⟨false, [], none, some (strL "Search failed - no results from any source")⟩) := by
  have hm34 : ∀ q scraped ddg wiki ruWiki,
      (pwsStage3 scraped ddg wiki).length ≤
        (pwsStage4 q scraped ddg wiki ruWiki).length := by
    intro q scraped ddg wiki ruWiki
    unfold pwsStage4
    split
    · exact pwsWiki_len _ _ _ _
    · exact le_rfl
  have hm56 : ∀ q scraped ddg wiki ruWiki hn so,
      (pwsStage5 q scraped ddg wiki ruWiki hn).length ≤
        (pwsStage6 q scraped ddg wiki ruWiki hn so).length := by
    intro q scraped ddg wiki ruWiki hn so
    unfold pwsStage6
    split
    · exact pwsSo_len _ _
    · exact le_rfl
  have hsucc : ∀ q scraped ddg wiki ruWiki hn so reddit,
      ((performWebSearch q scraped ddg wiki ruWiki hn so reddit).success = true ↔
        0 < (pwsMerged q scraped ddg wiki ruWiki hn so reddit).length) := by
    intro q scraped ddg wiki ruWiki hn so reddit
    unfold performWebSearch
    dsimp only
    split
    · rename_i h; simpa using h
    · rename_i h; simpa using h
  refine ⟨?_, ?_, ?_⟩
  · intro q scraped ddg wiki ruWiki hn so reddit
    rw [hsucc q scraped ddg wiki ruWiki hn so reddit]
    have h12 : (pwsStage1 scraped).length ≤ (pwsStage2 scraped ddg).length :=
      pwsSrc2_len _ _
    have h23 : (pwsStage2 scraped ddg).length ≤ (pwsStage3 scraped ddg wiki).length :=
      pwsWiki_len _ _ _ _
    have h34 := hm34 q scraped ddg wiki ruWiki
    have h45 : (pwsStage4 q scraped ddg wiki ruWiki).length ≤
        (pwsStage5 q scraped ddg wiki ruWiki hn).length := pwsHn_len _ _
    have h56 := hm56 q scraped ddg wiki ruWiki hn so
    have h67 : (pwsStage6 q scraped ddg wiki ruWiki hn so).length ≤
        (pwsMerged q scraped ddg wiki ruWiki hn so reddit).length :=
      pwsReddit_len _ _
    omega
  · intro q scraped ddg wiki ruWiki hn so reddit
    unfold performWebSearch
    dsimp only
    split
    · rename_i h
      left
      refine ⟨rfl, ?_⟩
      intro hc
      have hlen := congrArg List.length hc
      rw [List.length_take, List.length_nil] at hlen
      omega
    · right
      rfl
  · intro q
    have h7 : pwsMerged q none none none none none none none = [] := by
      unfold pwsMerged pwsStage6 pwsStage5 pwsStage4 pwsStage3 pwsStage2 pwsStage1
      simp [pwsReddit, pwsSo, pwsHn, pwsWiki, pwsSrc2, pwsSrc1]
    unfold performWebSearch
    dsimp only
    rw [h7]
    simp

/-- C8: the intent classifier is total and priority ordered.  Every
query maps to one of the five intents, the four pattern groups are
tested in the order time, weather, currency, news against the lowercased
query, the first group with a matching pattern decides the intent, a
query matching no group maps to search, and so does the empty string. -/
theorem claim8_intent_total_priority :
    (∀ q, detectQueryIntent q = strL "time" ∨ detectQueryIntent q = strL "weather" ∨
      detectQueryIntent q = strL "currency" ∨ detectQueryIntent q = strL "news" ∨
      detectQueryIntent q = strL "search") ∧
    (∀ q, groupHit timePatterns (jsToLower q) = true →
      detectQueryIntent q = strL "time") ∧
    (∀ q, groupHit timePatterns (jsToLower q) = false →
      groupHit weatherPatterns (jsToLower q) = true →
      detectQueryIntent q = strL "weather") ∧
    (∀ q, groupHit timePatterns (jsToLower q) = false →
      groupHit weatherPatterns (jsToLower q) = false →
      groupHit currencyPatterns (jsToLower q) = true →
      detectQueryIntent q = strL "currency") ∧
    (∀ q, groupHit timePatterns (jsToLower q) = false →
      groupHit weatherPatterns (jsToLower q) = false →
      groupHit currencyPatterns (jsToLower q) = false →
      groupHit newsPatterns (jsToLower q) = true →
      detectQueryIntent q = strL "news") ∧
    (∀ q, groupHit timePatterns (jsToLower q) = false →
      groupHit weatherPatterns (jsToLower q) = false →
      groupHit currencyPatterns (jsToLower q) = false →
      groupHit newsPatterns (jsToLower q) = false →
      detectQueryIntent q = strL "search") ∧
    detectQueryIntent [] = strL "search" := by
  refine ⟨?_, ?_, ?_, ?_, ?_, ?_, by decide⟩
  · intro q
    unfold detectQueryIntent
    dsimp only
    split_ifs <;> simp
  · intro q h
    simp [detectQueryIntent, h]
  · intro q h1 h2
    simp [detectQueryIntent, h1, h2]
  · intro q h1 h2 h3
    simp [detectQueryIntent, h1, h2, h3]
  · intro q h1 h2 h3 h4
    simp [detectQueryIntent, h1, h2, h3, h4]
  · intro q h1 h2 h3 h4
    simp [detectQueryIntent, h1, h2, h3, h4]

theorem claim8_witness :
    groupHit timePatterns (jsToLower (strL "weather in Tokyo")) = false ∧
    detectQueryIntent (strL "weather in Tokyo") = strL "weather" :=
  ⟨by decide,
    claim8_intent_total_priority.2.2.1 (strL "weather in Tokyo")
      (by decide) (by decide)⟩

/-- C9, counterexample: the proxy chain claim fails on fetchUrlContent
of src/api.js, which never attempts direct retrieval: for a target URL
whose every proxy attempt fails, the attempted URLs are exactly the
three proxied URLs and the target itself is not among them. -/
theorem claim9_counterexample :
    (fetchUrlContentRun (strL "https://t") [none, none, none]).1 =
      corsProxyUrls (strL "https://t") ∧
    ¬ strL "https://t" ∈ (fetchUrlContentRun (strL "https://t") [none, none, none]).1 :=
  ⟨rfl, by decide⟩

/-- C9, amended: the MCP fetch_url tool attempts direct retrieval first
and on failure walks the ordered proxy list, while fetchUrlContent of
src/api.js walks only the proxy list with no direct attempt.  In both,
the attempted proxies form a prefix of the ordered list (each entry at
most one attempt, in order), the first successful attempt stops the
walk, and exhausting every attempt is reported as one single aggregate
failure object. -/
theorem claim9_amended :
    (∀ u rs, (fetchUrlContentRun u rs).1 <+: corsProxyUrls u) ∧
    (∀ p ps rs b, proxyWalk (p :: ps) (some b :: rs) = ([p], some b)) ∧
    (∀ p ps rs, proxyWalk (p :: ps) (none :: rs) =
      (p :: (proxyWalk ps rs).1, (proxyWalk ps rs).2)) ∧
    (∀ u rs, (∀ r ∈ rs, r = none) →
      fetchUrlContentRun u rs = (corsProxyUrls u,
        ⟨false, u, none,
          some (strL "Failed to fetch URL content through available proxies")⟩)) ∧
    (∀ u b rs, fetchUrlRun u (some b) rs = ([u], ⟨false, some b, none⟩)) ∧
    (∀ u rs, (fetchUrlRun u none rs).1 = u :: (fetchUrlContentRun u rs).1) ∧
    (∀ u rs, (∀ r ∈ rs, r = none) →
      fetchUrlRun u none rs = (u :: corsProxyUrls u,
        ⟨true, none, some (strL "Error fetching URL \"" ++ u ++
          strL "\": Failed to fetch URL through all available methods")⟩)) := by
  have hfst : ∀ u rs, (fetchUrlContentRun u rs).1 = (proxyWalk (corsProxyUrls u) rs).1 := by
    intro u rs
    unfold fetchUrlContentRun
    dsimp only
    cases (proxyWalk (corsProxyUrls u) rs).2 <;> rfl
  have hfst2 : ∀ u rs, (fetchUrlRun u none rs).1 =
      u :: (proxyWalk (corsProxyUrls u) rs).1 := by
    intro u rs
    unfold fetchUrlRun
    dsimp only
    cases (proxyWalk (corsProxyUrls u) rs).2 <;> rfl
  refine ⟨?_, ?_, ?_, ?_, ?_, ?_, ?_⟩
  · intro u rs
    rw [hfst]
    exact proxyWalk_isPrefix _ _
  · intro p ps rs b
    rfl
  · intro p ps rs
    rfl
  · intro u rs hall
    unfold fetchUrlContentRun
    rw [proxyWalk_allNone (corsProxyUrls u) rs hall]
  · intro u b rs
    rfl
  · intro u rs
    rw [hfst, hfst2]
  · intro u rs hall
    unfold fetchUrlRun
    rw [proxyWalk_allNone (corsProxyUrls u) rs hall]

theorem claim9_witness :
    fetchUrlContentRun (strL "https://t") [none, none, none] =
      (corsProxyUrls (strL "https://t"),
        ⟨false, strL "https://t", none,
          some (strL "Failed to fetch URL content through available proxies")⟩) :=
  claim9_amended.2.2.2.1 (strL "https://t") [none, none, none] (by simp)

/-- C10: in extractContent a provider shape only matches when its field
is truthy, not merely present.  The event of the claim, whose delta
content field is present but empty while a bare content field carries x,
extracts x; the same event with a delta text field instead also falls
through to that lower priority shape; and without any fallback the empty
field yields null rather than the empty string. -/
theorem claim10_empty_field_falls_through :
    extractContent c10ev1 = some (.str (strL "x")) ∧
    extractContent c10ev3 = some (.str (strL "x")) ∧
    extractContent c10ev2 = none :=
  ⟨rfl, rfl, rfl⟩

end Leetob
